import Mathlib

/-!
Verification of the NetSuite mirror/query core.

Shallow embedding of the schema-cache/discovery layer
(`app/netsuite/schema_discovery.py`), the mirror sync engine
(`app/netsuite/sync.py`, `app/admin/router.py`) and the query
translate/validate layer (`app/netsuite/postgres_query.py`),
with theorems settling the frozen specification claims.

Strings are modelled as `List Char`; the Python regex operations used by
the source (which are all simple scanning substitutions/searches) are
implemented as explicit character-level scanners with the exact
left-to-right, non-overlapping semantics of `re.sub`/`re.search`/`re.findall`.
-/

set_option autoImplicit false

namespace NetSuiteAI

/-! ## Character-level utilities (Python `str` / `re` semantics) -/

/-- Python `\s` character class: space, tab, newline, carriage return,
vertical tab, form feed. -/
def pyIsSpace (c : Char) : Bool :=
  c == ' ' || c == '\t' || c == '\n' || c == '\r' || c == '\x0b' || c == '\x0c'

/-- Python `\w` (ASCII): letters, digits, underscore. -/
def isWordChar (c : Char) : Bool :=
  c.isAlphanum || c == '_'

/-- Identifier start class `[a-zA-Z_]` of the validator's table regex. -/
def isIdentStart (c : Char) : Bool :=
  c.isAlpha || c == '_'

/-- Identifier continuation class `[a-zA-Z0-9_]`. -/
def isIdentChar (c : Char) : Bool :=
  c.isAlphanum || c == '_'

/-- Case-insensitive: `pat` is a prefix of `s` (regex `IGNORECASE` literal match). -/
def matchCI : List Char → List Char → Bool
  | [], _ => true
  | _ :: _, [] => false
  | p :: ps, c :: cs => (p.toLower == c.toLower) && matchCI ps cs

/-- Case-sensitive: `pat` is a prefix of `s`. -/
def matchCS : List Char → List Char → Bool
  | [], _ => true
  | _ :: _, [] => false
  | p :: ps, c :: cs => (p == c) && matchCS ps cs

/-- Python `pat in s` substring containment. -/
def containsSub (pat : List Char) : List Char → Bool
  | [] => matchCS pat []
  | c :: cs => matchCS pat (c :: cs) || containsSub pat cs

/-- Python `str.strip()`: drop leading and trailing whitespace. -/
def pyStrip (s : List Char) : List Char :=
  ((s.dropWhile pyIsSpace).reverse.dropWhile pyIsSpace).reverse

/-- Python `str.rstrip(';')`: drop trailing semicolons. -/
def rstripSemi (s : List Char) : List Char :=
  (s.reverse.dropWhile (· == ';')).reverse

/-- Uppercase a string (`str.upper()`, ASCII). -/
def toUpperChars (s : List Char) : List Char :=
  s.map Char.toUpper

/-- Lowercase a string (`str.lower()`, ASCII). -/
def toLowerChars (s : List Char) : List Char :=
  s.map Char.toLower

/-- `str.lower()` on a `String` (kernel-computable form). -/
def strToLower (s : String) : String :=
  String.mk (toLowerChars s.data)

/-! ## Query validator — `postgres_query._validate_sql` -/

/-- Word-boundary condition to the left of a match position: the previous
character (if any) is not a word character (Python `\b` given that the
keyword itself starts and ends with word characters). -/
def boundaryBefore (prev : Option Char) : Bool :=
  match prev with
  | none => true
  | some c => !(isWordChar c)

/-- Word-boundary condition after `n` matched characters of `s`. -/
def boundaryAfterDrop (n : Nat) (s : List Char) : Bool :=
  match s.drop n with
  | [] => true
  | c :: _ => !(isWordChar c)

/-- `re.search(rf'\b{kw}\b', s)` for a keyword made of word characters:
scan every position, tracking the preceding character. -/
def wbSearchAux (word : List Char) (prev : Option Char) : List Char → Bool
  | [] => false
  | c :: cs =>
    (boundaryBefore prev && matchCS word (c :: cs) && boundaryAfterDrop word.length (c :: cs))
      || wbSearchAux word (some c) cs

def wbSearch (word s : List Char) : Bool :=
  wbSearchAux word none s

/-- The CTE misuse pattern `\)\s*(INSERT|UPDATE|DELETE|MERGE)\s` matched
at the head of `s` (on the upper-cased statement). -/
def cteDmlAt (s : List Char) : Bool :=
  match s with
  | ')' :: rest =>
    let rest' := rest.dropWhile pyIsSpace
    [("INSERT".data), ("UPDATE".data), ("DELETE".data), ("MERGE".data)].any fun w =>
      matchCS w rest' &&
        (match rest'.drop w.length with
         | c :: _ => pyIsSpace c
         | [] => false)
  | _ => false

/-- `re.search` of the CTE misuse pattern anywhere in `s`. -/
def cteDmlSearch : List Char → Bool
  | [] => false
  | c :: cs => cteDmlAt (c :: cs) || cteDmlSearch cs

/-- One match attempt of `\b(?:FROM|JOIN)\s+([a-zA-Z_][a-zA-Z0-9_]*)`
(case-insensitive) at the head of `s` (the `\b` to the left is checked by
the caller). Returns the captured identifier and the total matched length. -/
def tableRefAt (s : List Char) : Option (List Char × Nat) :=
  if matchCI ("FROM".data) s || matchCI ("JOIN".data) s then
    let afterKw := s.drop 4
    let wsLen := (afterKw.takeWhile pyIsSpace).length
    if wsLen == 0 then none
    else
      match afterKw.drop wsLen with
      | [] => none
      | c :: rest =>
        if isIdentStart c then
          let tail := rest.takeWhile isIdentChar
          some (c :: tail, 4 + wsLen + 1 + tail.length)
        else none
  else none

/-- `re.findall` of the table-reference pattern: collect the captured
identifiers of the non-overlapping left-to-right matches, resuming after
each consumed match. The first argument counts characters of an already
consumed match still to be skipped (structural-recursion encoding of
"resume at the match end"). -/
def findTablesAux (prev : Option Char) : Nat → List Char → List (List Char)
  | _, [] => []
  | Nat.succ k, c :: cs => findTablesAux (some c) k cs
  | 0, c :: cs =>
    if boundaryBefore prev then
      match tableRefAt (c :: cs) with
      | some p => p.1 :: findTablesAux (some c) (p.2 - 1) cs
      | none => findTablesAux (some c) 0 cs
    else findTablesAux (some c) 0 cs

def findTables (s : List Char) : List (List Char) :=
  findTablesAux none 0 s

/-- Deny-list of dangerous whole-word keywords (always checked). -/
def dangerous_words : List String :=
  ["DROP", "TRUNCATE", "ALTER", "CREATE",
   "GRANT", "REVOKE", "EXEC", "EXECUTE", "CALL", "COPY", "LOAD"]

/-- DML keywords, additionally denied for non-CTE statements. -/
def dml_words : List String :=
  ["DELETE", "UPDATE", "INSERT", "MERGE"]

/-- Unconditionally rejected substrings. -/
def dangerous_patterns : List String :=
  ["INTO OUTFILE", "INTO DUMPFILE", "LOAD_FILE",
   "INFORMATION_SCHEMA", "PG_CATALOG", "PG_USER", "PG_SHADOW", ";"]

/-- Table allow-list used by the final check of `_validate_sql`
(mirror names and canonical remote names). -/
def validator_allowed_tables : List String :=
  ["ns_account", "ns_transaction", "ns_transactionline", "ns_employee", "ns_customer",
   "account", "transaction", "transactionline", "employee", "customer"]

/-- First element of `l` failing predicate `p`, reported through `msgOf`. -/
def firstFailing (p : String → Bool) (msgOf : String → String) : List String → Option String
  | [] => none
  | w :: ws => if p w then some (msgOf w) else firstFailing p msgOf ws

/-- Final allow-list check over the extracted table references
(`table.lower() not in allowed`). -/
def checkTables : List (List Char) → Option String
  | [] => none
  | t :: ts =>
    if validator_allowed_tables.contains (String.mk (toLowerChars t)) then checkTables ts
    else some ("Table not allowed: " ++ String.mk t ++ ". Only NetSuite mirror tables are queryable.")

/-- `_validate_sql`: returns `none` when the statement is accepted, or
`some message` for the first raised `ValueError`. -/
def validate_sql (sql : String) : Option String :=
  let su := pyStrip (toUpperChars sql.data)
  if !(matchCS ("SELECT".data) su || matchCS ("WITH".data) su) then
    some "Only SELECT queries are allowed"
  else
    let cteErr :=
      if matchCS ("WITH".data) su then
        if cteDmlSearch su then
          some "Only SELECT queries are allowed (no INSERT/UPDATE/DELETE with CTEs)"
        else if !containsSub ("SELECT".data) su then
          some "CTE must contain a SELECT query"
        else none
      else none
    match cteErr with
    | some e => some e
    | none =>
      match firstFailing (fun w => wbSearch w.data su)
          (fun w => "Dangerous keyword not allowed: " ++ w) dangerous_words with
      | some e => some e
      | none =>
        let dmlErr :=
          if !matchCS ("WITH".data) su then
            firstFailing (fun w => wbSearch w.data su)
              (fun w => "Dangerous keyword not allowed: " ++ w) dml_words
          else none
        match dmlErr with
        | some e => some e
        | none =>
          match firstFailing (fun p => containsSub p.data su)
              (fun p => "Dangerous pattern not allowed: " ++ p) dangerous_patterns with
          | some e => some e
          | none => checkTables (findTables sql.data)

/-! ## Query translator — `postgres_query._rewrite_table_names` / `_rewrite_syntax_pass`

`_rewrite_table_names` runs, per `(keyword, old_name)` pair,
`re.sub(rf'({kw}\s+)({old_name})(\s|$|\s+[A-Za-z])', rf'\1{new_name}\3', ·, flags=IGNORECASE)`.
The third group's alternation tries `\s` first, so a match consumes the
keyword, the (maximal) whitespace run, the old name, and then either one
whitespace character or nothing at the very end of the string. -/

/-- Match of the table-rename pattern at the head of `s`: returns
`(preLen, g3Len)` where `preLen` covers the keyword plus the whitespace
run and `g3Len ∈ {0, 1}` is the length of the third group. The total
consumed length is `preLen + old.length + g3Len`. -/
def tryMatchTable (kw old : List Char) (s : List Char) : Option (Nat × Nat) :=
  if matchCI kw s then
    let afterKw := s.drop kw.length
    let w := (afterKw.takeWhile pyIsSpace).length
    if w == 0 then none
    else if matchCI old (afterKw.drop w) then
      match s.drop (kw.length + w + old.length) with
      | [] => some (kw.length + w, 0)
      | c :: _ => if pyIsSpace c then some (kw.length + w, 1) else none
    else none
  else none

theorem tryMatchTable_pre_pos {kw old : List Char} {s : List Char} {p : Nat × Nat}
    (h : tryMatchTable kw old s = some p) : 1 ≤ p.1 := by
  unfold tryMatchTable at h
  dsimp only at h
  simp only [beq_iff_eq] at h
  repeat' split at h
  all_goals first
    | (injection h with h'; subst h'; dsimp only; omega)
    | exact absurd h (by simp)

/-- One `re.sub` pass for a single `(keyword, old_name)` pair: scan left
to right, replace each non-overlapping match by `\1 ++ new ++ \3`, resume
after the consumed text. The first argument counts characters of an
already consumed match still to be skipped. -/
def applyPassAux (kw old new : List Char) : Nat → List Char → List Char
  | _, [] => []
  | Nat.succ k, _ :: cs => applyPassAux kw old new k cs
  | 0, c :: cs =>
    match tryMatchTable kw old (c :: cs) with
    | some p =>
      (c :: cs).take p.1 ++ new ++ ((c :: cs).drop (p.1 + old.length)).take p.2
        ++ applyPassAux kw old new (p.1 + old.length + p.2 - 1) cs
    | none => c :: applyPassAux kw old new 0 cs

def applyPass (kw old new : List Char) (s : List Char) : List Char :=
  applyPassAux kw old new 0 s

/-- The FROM/JOIN-family keywords, in the source's order. -/
def sql_keywords : List String :=
  ["FROM", "JOIN", "INNER JOIN", "LEFT JOIN", "RIGHT JOIN", "OUTER JOIN", "CROSS JOIN"]

/-- `replace_table_name`: apply the substitution for every keyword in turn. -/
def replace_table_name (s : List Char) (old new : String) : List Char :=
  sql_keywords.foldl (fun acc kw => applyPass kw.data old.data new.data acc) s

/-- `_rewrite_table_names`: the five renames, longer name first. -/
def rewrite_table_names (s : List Char) : List Char :=
  let r1 := replace_table_name s "transactionline" "ns_transactionline"
  let r2 := replace_table_name r1 "transaction" "ns_transaction"
  let r3 := replace_table_name r2 "account" "ns_account"
  let r4 := replace_table_name r3 "employee" "ns_employee"
  replace_table_name r4 "customer" "ns_customer"

/-- Match of `SELECT\s+TOP\s+(\d+)\s+` (IGNORECASE) at the head of `s`:
returns the total consumed length (whitespace runs and the digit run
taken greedily) and the captured digits. -/
def topMatchAt (s : List Char) : Option (Nat × List Char) :=
  if matchCI ("SELECT".data) s then
    let a1 := s.drop 6
    let w1 := (a1.takeWhile pyIsSpace).length
    if w1 == 0 then none
    else
      let a2 := a1.drop w1
      if matchCI ("TOP".data) a2 then
        let a3 := a2.drop 3
        let w2 := (a3.takeWhile pyIsSpace).length
        if w2 == 0 then none
        else
          let a4 := a3.drop w2
          let ds := a4.takeWhile Char.isDigit
          if ds.length == 0 then none
          else
            let w3 := ((a4.drop ds.length).takeWhile pyIsSpace).length
            if w3 == 0 then none
            else some (6 + w1 + 3 + w2 + ds.length + w3, ds)
      else none
  else none

/-- The global `re.sub(top_pattern, 'SELECT ', sql)`: replace every
non-overlapping match by the literal `"SELECT "`. The first argument
counts characters of an already consumed match still to be skipped. -/
def subAllTopAux : Nat → List Char → List Char
  | _, [] => []
  | Nat.succ k, _ :: cs => subAllTopAux k cs
  | 0, c :: cs =>
    match topMatchAt (c :: cs) with
    | some p => ("SELECT ".data) ++ subAllTopAux (p.1 - 1) cs
    | none => c :: subAllTopAux 0 cs

def subAllTop (s : List Char) : List Char :=
  subAllTopAux 0 s

/-- `re.search(top_pattern, sql)`: the first match's captured digits. -/
def searchTop : List Char → Option (List Char)
  | [] => none
  | c :: cs =>
    match topMatchAt (c :: cs) with
    | some p => some p.2
    | none => searchTop cs

/-- `_rewrite_syntax_pass`: when a `TOP N` clause is found, remove every match,
strip trailing semicolons then whitespace, and append `LIMIT N`. -/
def rewrite_syntax_pass (s : List Char) : List Char :=
  match searchTop s with
  | none => s
  | some ds => pyStrip (rstripSemi (subAllTop s)) ++ (" LIMIT ".data) ++ ds

/-- The translation applied by `execute_postgres_query` before running a
statement against the mirror: table renaming, then syntax rewrite. -/
def translate (sql : String) : String :=
  String.mk (rewrite_syntax_pass (rewrite_table_names sql.data))

/-! ## Mirror sync engine — `app/netsuite/sync.py`

Cell values are modelled by `Val` (SQL null, text, or numeric); a row
payload is an association list of column name to value (a Python dict in
insertion order), and a mirror table is an association list keyed by the
primary-key value. -/

inductive Val where
  | null
  | s (v : String)
  | n (v : Int)
  deriving DecidableEq

abbrev Record := List (String × Val)

abbrev Mirror := List (Val × Record)

/-- Python dict insert: overwrite in place if the key exists, else append. -/
def dictUpd {α β : Type} [DecidableEq α] (k : α) (v : β) : List (α × β) → List (α × β)
  | [] => [(k, v)]
  | (k', v') :: rest => if k' = k then (k, v) :: rest else (k', v') :: dictUpd k v rest

/-- Python dict read `d.get(k)`: the value at the first matching key. -/
def alookup {α β : Type} [DecidableEq α] (k : α) : List (α × β) → Option β
  | [] => none
  | (k', v) :: rest => if k = k' then some v else alookup k rest

/-- `dict(zip(cols, vals))`: build a dict, later duplicate keys overwriting. -/
def zipToRecord (cols : List String) (vals : List Val) : Record :=
  (List.zip cols vals).foldl (fun acc p => dictUpd p.1 p.2 acc) []

/-- The primary-key value `record["id"]` of a payload record. -/
def idOf (r : Record) : Val :=
  (alookup "id" r).getD Val.null

/-- Row inserted for a fresh id: the record's columns; the omitted
`synced_at` column takes its `now()` server default. -/
def insertRow (r : Record) (now : Val) : Record :=
  r ++ [("synced_at", now)]

/-- `ON CONFLICT DO UPDATE SET ...` applied to an existing row: each
column of the update set is overwritten, `synced_at` from `now()` and the
others from the incoming record (`stmt.excluded`). -/
def applyUpdateSet (updateCols : List String) (incoming : Record) (now : Val)
    (old : Record) : Record :=
  updateCols.foldl
    (fun acc c =>
      if c = "synced_at" then dictUpd "synced_at" now acc
      else dictUpd c ((alookup c incoming).getD Val.null) acc)
    old

/-- Upsert of a single incoming record keyed by `k` into the mirror. -/
def upsertRow (updateCols : List String) (now : Val) (k : Val) (r : Record) :
    Mirror → Mirror
  | [] => [(k, insertRow r now)]
  | (k', row) :: m =>
    if k' = k then (k, applyUpdateSet updateCols r now row) :: m
    else (k', row) :: upsertRow updateCols now k r m

/-- All records of one chunk upserted in order. -/
def upsertChunk (updateCols : List String) (now : Val) (batch : List Record)
    (m : Mirror) : Mirror :=
  batch.foldl (fun acc r => upsertRow updateCols now (idOf r) r acc) m

/-- One `INSERT ... ON CONFLICT DO UPDATE` statement: PostgreSQL rejects a
statement whose batch touches the same key twice
("ON CONFLICT DO UPDATE command cannot affect row a second time"). -/
def upsertStatement (updateCols : List String) (now : Val) (batch : List Record)
    (m : Mirror) : Option Mirror :=
  if (batch.map idOf).Nodup then some (upsertChunk updateCols now batch m) else none

/-- Effective slice size of the batching loops (every call passes
`n ≥ 1`; a zero guard keeps the recursion well defined). -/
def chunkSize (n : Nat) : Nat :=
  match n with
  | 0 => 1
  | m + 1 => m + 1

/-- `records[i:i+n]` slicing of the batching loops (`n ≥ 1` in every
call; the first argument counts elements of an already emitted chunk
still to be skipped). -/
def chunksOfAux {α : Type} (n : Nat) : Nat → List α → List (List α)
  | Nat.succ k, _ :: xs => chunksOfAux n k xs
  | _, [] => []
  | 0, x :: xs => (x :: xs).take (chunkSize n) :: chunksOfAux n (chunkSize n - 1) xs

def chunksOf {α : Type} (n : Nat) (l : List α) : List (List α) :=
  chunksOfAux n 0 l

/-- `sync.py` dict `seen_ids`: deduplicate records by id, keeping the
last occurrence's payload (Python dict update keeps first-insertion
order and the last value). -/
def dedupById (records : List Record) : List Record :=
  (records.foldl (fun acc r => dictUpd (idOf r) r acc) []).map Prod.snd

/-- Result shape `{columns, rows}` of `run_query`. -/
structure QueryResult where
  columns : List String
  rows : List (List Val)
  deriving DecidableEq

/-- The mirror columns of `ns_account` known to `sync_accounts`. -/
def account_pg_columns : List String :=
  ["id", "acctnumber", "name", "fullname", "type", "accttype",
   "specialaccttype", "isinactive", "issummary", "parent", "currency"]

/-- `sync_accounts` record construction: keep only known columns of the
lower-cased payload, then map a remote `lastmodifieddate` to the mirror
column `ns_last_modified`. -/
def buildAccountRecord (colLower : List String) (row : List Val) : Record :=
  let full := zipToRecord colLower row
  let rec1 := full.filter (fun p => account_pg_columns.contains p.1)
  match alookup "lastmodifieddate" full with
  | some v => dictUpd "ns_last_modified" v rec1
  | none => rec1

/-- The records one `sync_accounts` run converts from the query result. -/
def sync_accounts_records (res : QueryResult) : List Record :=
  let colLower := res.columns.map strToLower
  res.rows.map (buildAccountRecord colLower)

/-- `available_cols = set(col_lower) & pg_columns` (as a deterministic list). -/
def accountAvailableCols (res : QueryResult) : List String :=
  account_pg_columns.filter (fun c => (res.columns.map strToLower).contains c)

/-- The update set of one account batch: `synced_at`, every available
column except the primary key, and `ns_last_modified` when the batch's
first record carries it. -/
def accountUpdateCols (availableCols : List String) (first? : Option Record) :
    List String :=
  "synced_at" :: availableCols.filter (fun c => c ≠ "id")
    ++ (match first? with
        | some r => if (alookup "ns_last_modified" r).isSome then ["ns_last_modified"] else []
        | none => [])

/-- The mirror-write portion of `sync_accounts`: batches of 2000, each an
upsert statement with the batch's update set. `none` models the
duplicate-key statement failure. -/
def sync_accounts_write (res : QueryResult) (now : Val) (m : Mirror) : Option Mirror :=
  (chunksOf 2000 (sync_accounts_records res)).foldlM
    (fun acc batch =>
      upsertStatement (accountUpdateCols (accountAvailableCols res) batch.head?) now batch acc)
    m

/-- Union of the update sets of all account batches of one sync run. -/
def sync_accounts_update_cols (res : QueryResult) : List String :=
  (chunksOf 2000 (sync_accounts_records res)).foldr
    (fun batch acc => accountUpdateCols (accountAvailableCols res) batch.head? ++ acc) []

/-! ### Per-table sync outcome and orchestrator — `sync.py` lines 57–144 and 548–582

Each per-table function opens a `running` sync-log entry before its `try`
block, performs extraction and writing inside it, and catches `JdbcError`
and every other exception, marking the log entry `failed` and returning a
`{"status": "error", ...}` dict instead of raising. The model abstracts
the body of the `try` block as an `Except String Nat` (the number of rows
synced on success, the stringified exception on failure), which is the
exact interface the surrounding skeleton consumes. -/

structure TableSyncResult where
  status : String
  rows_synced : Option Nat
  error : Option String
  table : String
  deriving DecidableEq

structure LogEntry where
  table_name : String
  status : String
  rows_synced : Option Nat
  error_message : Option String
  deriving DecidableEq

/-- The shared `try/except JdbcError/except Exception` skeleton of the
five per-table sync functions: the first component is the returned dict,
the second the completed sync-log entry. -/
def run_table_sync (table : String) (body : Except String Nat) :
    TableSyncResult × LogEntry :=
  match body with
  | .ok rows =>
    ({ status := "success", rows_synced := some rows, error := none, table := table },
     { table_name := table, status := "success", rows_synced := some rows, error_message := none })
  | .error e =>
    ({ status := "error", rows_synced := none, error := some e, table := table },
     { table_name := table, status := "failed", rows_synced := none, error_message := some e })

structure SyncAllResult where
  status : String
  tables : List (String × TableSyncResult)
  logs : List LogEntry
  total_rows : Nat
  deriving DecidableEq

/-- `sync_all`: the five tables in order, then the aggregate status
(`success` only when every per-table status is `success`, else `partial`)
and the total row count (`rows_synced` defaulting to 0 for error dicts). -/
def sync_all (account employee customer transaction transactionline : Except String Nat) :
    SyncAllResult :=
  let ra := run_table_sync "account" account
  let re := run_table_sync "employee" employee
  let rc := run_table_sync "customer" customer
  let rt := run_table_sync "transaction" transaction
  let rl := run_table_sync "transactionline" transactionline
  let results := [("account", ra.1), ("employee", re.1), ("customer", rc.1),
                  ("transaction", rt.1), ("transactionline", rl.1)]
  let all_success := results.all (fun p => p.2.status == "success")
  { status := if all_success then "success" else "partial",
    tables := results,
    logs := [ra.2, re.2, rc.2, rt.2, rl.2],
    total_rows := results.foldl (fun n p => n + p.2.rows_synced.getD 0) 0 }

/-! ### Targeted-table sync request — `admin/router.py::sync_netsuite_data`

The endpoint iterates over the requested table names; a recognized name
runs its sync function (remote extraction, mirror write, sync-log entry)
immediately, an unrecognized name makes the endpoint return an error
response on the spot. `effects` records the tables whose sync function
was invoked (each such invocation opens a sync-log entry and performs
remote I/O) before the response was produced. -/

def recognizedTable (t : String) : Bool :=
  t == "account" || t == "transaction" || t == "transactionline"

structure TargetedSyncResponse where
  status : String
  error : Option String
  effects : List String
  results : List (String × TableSyncResult)
  deriving DecidableEq

def sync_targeted_loop (outcome : String → Except String Nat) :
    List String → List String → List (String × TableSyncResult) → TargetedSyncResponse
  | [], effects, results =>
    let all_success := results.all (fun p => p.2.status == "success")
    { status := if all_success then "success" else "partial", error := none,
      effects := effects.reverse, results := results.reverse }
  | t :: rest, effects, results =>
    if recognizedTable t then
      sync_targeted_loop outcome rest (t :: effects)
        ((t, (run_table_sync t (outcome t)).1) :: results)
    else
      { status := "error", error := some ("Unknown table: " ++ t),
        effects := effects.reverse, results := [] }

/-- The targeted-table branch of `sync_netsuite_data`. -/
def sync_netsuite_tables (tables : List String) (outcome : String → Except String Nat) :
    TargetedSyncResponse :=
  sync_targeted_loop outcome tables [] []

/-! ## Schema cache and discovery — `app/netsuite/schema_discovery.py`

Time is a `Nat` (seconds); the remote metadata surface (`OA_TABLES`,
`OA_COLUMNS` reached through the JDBC gateway) is a `RemoteSchema`;
every gateway round trip performed by a discovery is recorded as a
`GatewayCall`. -/

def SCHEMA_CACHE_TTL : Nat := 172800

structure ColumnInfo where
  name : String
  data_type : String
  deriving DecidableEq

structure TableInfo where
  name : String
  table_type : String
  description : String
  columns : List (String × ColumnInfo)
  deriving DecidableEq

/-- The `SchemaCache` dataclass: one cached entry per connection. -/
structure SchemaCacheEntry where
  tables : List (String × TableInfo)
  fetched_at : Nat
  connection_id : String
  deriving DecidableEq

/-- `_is_cache_valid`. -/
def is_cache_valid (cache : Option SchemaCacheEntry) (now : Nat) : Bool :=
  match cache with
  | none => false
  | some c => now - c.fetched_at < SCHEMA_CACHE_TTL

/-- The remote metadata tables as observed through the gateway:
`table_names` are the `TABLE_NAME` values of `OA_TABLES` in row order;
`columns t` are the `(COLUMN_NAME, TYPE_NAME)` rows of `OA_COLUMNS` for
table `t`; `batch_ok` says whether the single batched `OA_COLUMNS`
IN-list query succeeds; `single_fails t` whether the per-table fallback
query for `t` raises `JdbcError` (which `fetch_columns_for_table`
swallows, returning no columns). -/
structure RemoteSchema where
  table_names : List String
  columns : String → List (String × String)
  batch_ok : Bool
  single_fails : String → Bool

inductive GatewayCall where
  | tablesQuery (filter : Option (List String))
  | columnsBatch (names : List String)
  | columnsSingle (name : String)
  deriving DecidableEq

/-- The table names a gateway call sends to the remote source. -/
def GatewayCall.mentions : GatewayCall → List String
  | .tablesQuery (some f) => f
  | .tablesQuery none => []
  | .columnsBatch names => names
  | .columnsSingle name => [name]

/-- `fetch_tables`: `SELECT * FROM OA_TABLES [WHERE TABLE_NAME IN (...)]`;
returns the matching table names and the gateway call made. -/
def fetch_tables (remote : RemoteSchema) (filter : Option (List String)) :
    List String × List GatewayCall :=
  match filter with
  | some f => (remote.table_names.filter (fun n => f.contains n), [.tablesQuery (some f)])
  | none => (remote.table_names, [.tablesQuery none])

/-- `fetch_columns_for_tables`: one batched IN-list query when it
succeeds, else one query per table, a failing per-table query yielding no
columns. The result maps each table name to its column rows (default `[]`). -/
def fetch_columns_for_tables (remote : RemoteSchema) (names : List String) :
    (String → List (String × String)) × List GatewayCall :=
  if remote.batch_ok then
    (fun n => if names.contains n then remote.columns n else [], [.columnsBatch names])
  else
    (fun n => if names.contains n && !remote.single_fails n then remote.columns n else [],
     names.map .columnsSingle)

/-- Build one `TableInfo` from the column rows, skipping rows with an
empty `COLUMN_NAME` (lines 241–264). -/
def build_table_info (name : String) (cols : List (String × String)) : TableInfo :=
  { name := name, table_type := "TABLE", description := "",
    columns := cols.foldl
      (fun acc cd =>
        if cd.1 = "" then acc
        else dictUpd cd.1 { name := cd.1, data_type := cd.2 } acc)
      [] }

/-- One loop iteration of lines 241–268: add the built table unless its
column dict came out empty (line 266: `if table_info.columns:`). -/
def build_tables_step (colsOf : String → List (String × String))
    (acc : List (String × TableInfo)) (name : String) : List (String × TableInfo) :=
  let ti := build_table_info name (colsOf name)
  if ti.columns.isEmpty then acc else dictUpd name ti acc

/-- Build the discovered table dict, dropping every table whose built
column dict is empty. -/
def build_tables (names : List String) (colsOf : String → List (String × String)) :
    List (String × TableInfo) :=
  names.foldl (build_tables_step colsOf) []

/-- `dict(existing).update(new)`: merge, new tables overwriting same-named. -/
def merge_tables (old new : List (String × TableInfo)) : List (String × TableInfo) :=
  new.foldl (fun acc p => dictUpd p.1 p.2 acc) old

/-- The discovered table set of one non-cache-hit discovery run. -/
def discovered_tables (remote : RemoteSchema) (filter : Option (List String)) :
    List (String × TableInfo) :=
  build_tables (fetch_tables remote filter).1 (fetch_columns_for_tables remote (fetch_tables remote filter).1).1

/-- The cache-hit test of lines 189–210: not forced, entry valid, and
either no filter or every requested name already cached (case-insensitive). -/
def discover_cache_hit (existing : Option SchemaCacheEntry) (now : Nat)
    (force_refresh : Bool) (table_filter : Option (List String)) : Bool :=
  !force_refresh && is_cache_valid existing now &&
    (match existing, table_filter with
     | some c, some f =>
       f.all (fun t => ((c.tables.map Prod.fst).map strToLower).contains (strToLower t))
     | some _, none => true
     | none, _ => false)

/-- The cache write of lines 273–293: skipped when nothing was
discovered; otherwise merge into any existing entry unless the refresh
was forced, and stamp `fetched_at` with the current time. -/
def discover_cache_write (existing : Option SchemaCacheEntry) (connection_id : String)
    (now : Nat) (force_refresh : Bool) (tables : List (String × TableInfo)) :
    Option SchemaCacheEntry :=
  if tables.isEmpty then existing
  else
    let merged :=
      match existing with
      | some e => if !force_refresh then merge_tables e.tables tables else tables
      | none => tables
    some { tables := merged, fetched_at := now, connection_id := connection_id }

structure DiscoverOutcome where
  result : List (String × TableInfo)
  cache : Option SchemaCacheEntry
  calls : List GatewayCall
  deriving DecidableEq

/-- `discover_schema` for one connection: cache-hit check, metadata
fetches, table building, cache write, and the final read-back of the
merged cache (lines 295–298 return the full merged entry, or the bare
discovery result when nothing was cached). -/
def discover_schema (existing : Option SchemaCacheEntry) (connection_id : String)
    (now : Nat) (force_refresh : Bool) (table_filter : Option (List String))
    (remote : RemoteSchema) : DiscoverOutcome :=
  if discover_cache_hit existing now force_refresh table_filter then
    { result := (existing.map SchemaCacheEntry.tables).getD [], cache := existing, calls := [] }
  else
    let fetched := fetch_tables remote table_filter
    if fetched.1.isEmpty then
      { result := [], cache := existing, calls := fetched.2 }
    else
      let cols := fetch_columns_for_tables remote fetched.1
      let tables := build_tables fetched.1 cols.1
      let cache' := discover_cache_write existing connection_id now force_refresh tables
      { result := (cache'.map SchemaCacheEntry.tables).getD tables,
        cache := cache',
        calls := fetched.2 ++ cols.2 }

/-- `get_cached_schema`: no I/O, reads only a still-valid entry. -/
def get_cached_schema (cache : Option SchemaCacheEntry) (now : Nat) :
    Option (List (String × TableInfo)) :=
  match cache with
  | some c => if is_cache_valid (some c) now then some c.tables else none
  | none => none

/-! ## Helper lemmas about Python-dict association lists -/

theorem alookup_eq_none_of_not_mem_keys {α β : Type} [DecidableEq α]
    (l : List (α × β)) (k : α) (h : k ∉ l.map Prod.fst) : alookup k l = none := by
  induction l with
  | nil => rfl
  | cons p rest ih =>
    obtain ⟨k₀, v₀⟩ := p
    simp only [List.map_cons, List.mem_cons] at h
    push_neg at h
    simp only [alookup, if_neg h.1]
    exact ih h.2

theorem dictUpd_alookup {α β : Type} [DecidableEq α] (k : α) (v : β)
    (l : List (α × β)) (k' : α) :
    alookup k' (dictUpd k v l) = if k' = k then some v else alookup k' l := by
  induction l with
  | nil =>
    simp only [dictUpd, alookup]
  | cons p rest ih =>
    obtain ⟨k₀, v₀⟩ := p
    by_cases h : k₀ = k
    · subst h
      simp only [dictUpd, if_pos rfl, alookup]
      by_cases h2 : k' = k₀ <;> simp [h2]
    · simp only [dictUpd, if_neg h, alookup]
      by_cases h2 : k' = k₀
      · subst h2
        rw [if_pos rfl, if_neg h, if_pos rfl]
      · rw [if_neg h2, ih, if_neg h2]

theorem mem_keys_dictUpd {α β : Type} [DecidableEq α] (k : α) (v : β)
    (l : List (α × β)) (k' : α) :
    k' ∈ (dictUpd k v l).map Prod.fst ↔ k' = k ∨ k' ∈ l.map Prod.fst := by
  induction l with
  | nil => simp [dictUpd]
  | cons p rest ih =>
    obtain ⟨k₀, v₀⟩ := p
    by_cases h : k₀ = k
    · subst h
      have hd : dictUpd k₀ v ((k₀, v₀) :: rest) = (k₀, v) :: rest := by simp [dictUpd]
      rw [hd]
      simp only [List.map_cons, List.mem_cons]
      tauto
    · have hd : dictUpd k v ((k₀, v₀) :: rest) = (k₀, v₀) :: dictUpd k v rest := by
        simp [dictUpd, h]
      rw [hd]
      simp only [List.map_cons, List.mem_cons, ih]
      tauto

theorem keys_nodup_dictUpd {α β : Type} [DecidableEq α] (k : α) (v : β)
    (l : List (α × β)) (h : (l.map Prod.fst).Nodup) :
    ((dictUpd k v l).map Prod.fst).Nodup := by
  induction l with
  | nil => simp [dictUpd]
  | cons p rest ih =>
    obtain ⟨k₀, v₀⟩ := p
    simp only [List.map_cons, List.nodup_cons] at h
    by_cases hk : k₀ = k
    · subst hk
      simpa [dictUpd, List.nodup_cons] using h
    · simp only [dictUpd, if_neg hk, List.map_cons, List.nodup_cons]
      refine ⟨?_, ih h.2⟩
      intro hc
      rw [mem_keys_dictUpd] at hc
      rcases hc with hc | hc
      · exact hk hc
      · exact h.1 hc

/-! ## Helper lemmas about the schema-discovery pipeline -/

theorem build_tables_aux_keys_nodup (colsOf : String → List (String × String)) :
    ∀ (names : List String) (acc : List (String × TableInfo)),
      (acc.map Prod.fst).Nodup →
      ((names.foldl (build_tables_step colsOf) acc).map Prod.fst).Nodup := by
  intro names
  induction names with
  | nil => intro acc hacc; simpa using hacc
  | cons name rest ih =>
    intro acc hacc
    simp only [List.foldl_cons, build_tables_step]
    by_cases hc : (build_table_info name (colsOf name)).columns.isEmpty = true
    · simpa [hc] using ih acc hacc
    · have := ih (dictUpd name (build_table_info name (colsOf name)) acc)
        (keys_nodup_dictUpd _ _ _ hacc)
      simpa [hc] using this

theorem build_tables_keys_nodup (names : List String)
    (colsOf : String → List (String × String)) :
    ((build_tables names colsOf).map Prod.fst).Nodup :=
  build_tables_aux_keys_nodup colsOf names [] (by simp)

theorem build_tables_aux_columns_ne_nil (colsOf : String → List (String × String))
    (n : String) :
    ∀ (names : List String) (acc : List (String × TableInfo)),
      (∀ ti', alookup n acc = some ti' → ti'.columns ≠ []) →
      ∀ ti', alookup n (names.foldl (build_tables_step colsOf) acc) = some ti' →
        ti'.columns ≠ [] := by
  intro names
  induction names with
  | nil => intro acc hacc ti' h'; exact hacc ti' h'
  | cons name rest ih =>
    intro acc hacc ti' h'
    simp only [List.foldl_cons, build_tables_step] at h'
    by_cases hc : (build_table_info name (colsOf name)).columns.isEmpty = true
    · rw [if_pos hc] at h'
      exact ih acc hacc ti' h'
    · rw [if_neg hc] at h'
      refine ih (dictUpd name (build_table_info name (colsOf name)) acc) ?_ ti' h'
      intro ti'' h''
      rw [dictUpd_alookup] at h''
      by_cases hn : n = name
      · rw [if_pos hn] at h''
        injection h'' with h''
        subst h''
        simpa using hc
      · rw [if_neg hn] at h''
        exact hacc ti'' h''

theorem build_tables_lookup_columns_ne_nil (names : List String)
    (colsOf : String → List (String × String)) (n : String) (ti : TableInfo)
    (h : alookup n (build_tables names colsOf) = some ti) : ti.columns ≠ [] :=
  build_tables_aux_columns_ne_nil colsOf n names [] (by simp [alookup]) ti h

theorem build_tables_aux_zero_columns (colsOf : String → List (String × String))
    (n : String) (h : (build_table_info n (colsOf n)).columns = []) :
    ∀ (names : List String) (acc : List (String × TableInfo)),
      alookup n acc = none →
      alookup n (names.foldl (build_tables_step colsOf) acc) = none := by
  intro names
  induction names with
  | nil => intro acc hacc; exact hacc
  | cons name rest ih =>
    intro acc hacc
    simp only [List.foldl_cons, build_tables_step]
    by_cases hc : (build_table_info name (colsOf name)).columns.isEmpty = true
    · rw [if_pos hc]
      exact ih acc hacc
    · rw [if_neg hc]
      refine ih _ ?_
      rw [dictUpd_alookup]
      by_cases hn : n = name
      · subst hn
        rw [h] at hc
        simp at hc
      · rw [if_neg hn]
        exact hacc

theorem build_tables_zero_columns_excluded (names : List String)
    (colsOf : String → List (String × String)) (n : String)
    (h : (build_table_info n (colsOf n)).columns = []) :
    alookup n (build_tables names colsOf) = none :=
  build_tables_aux_zero_columns colsOf n h names [] rfl

theorem merge_tables_alookup (old new : List (String × TableInfo))
    (hnd : (new.map Prod.fst).Nodup) (n : String) :
    alookup n (merge_tables old new) =
      match alookup n new with
      | some v => some v
      | none => alookup n old := by
  induction new generalizing old with
  | nil => simp [merge_tables, alookup]
  | cons p rest ih =>
    obtain ⟨k, v⟩ := p
    simp only [List.map_cons, List.nodup_cons] at hnd
    have step : merge_tables old ((k, v) :: rest) = merge_tables (dictUpd k v old) rest := rfl
    rw [step, ih _ hnd.2]
    by_cases hn : n = k
    · subst hn
      have hrest : alookup n rest = none := alookup_eq_none_of_not_mem_keys rest n hnd.1
      rw [hrest]
      simp [dictUpd_alookup, alookup]
    · rw [dictUpd_alookup, if_neg hn]
      simp only [alookup, if_neg hn]

theorem mem_keys_merge_left (old new : List (String × TableInfo)) (n : String)
    (h : n ∈ old.map Prod.fst) : n ∈ (merge_tables old new).map Prod.fst := by
  induction new generalizing old with
  | nil => simpa [merge_tables] using h
  | cons p rest ih =>
    have step : merge_tables old (p :: rest) = merge_tables (dictUpd p.1 p.2 old) rest := rfl
    rw [step]
    exact ih _ ((mem_keys_dictUpd _ _ _ _).2 (Or.inr h))

theorem mem_keys_merge_right (old new : List (String × TableInfo)) (n : String)
    (h : n ∈ new.map Prod.fst) : n ∈ (merge_tables old new).map Prod.fst := by
  induction new generalizing old with
  | nil => simp at h
  | cons p rest ih =>
    have step : merge_tables old (p :: rest) = merge_tables (dictUpd p.1 p.2 old) rest := rfl
    rw [step]
    simp only [List.map_cons, List.mem_cons] at h
    rcases h with h | h
    · exact mem_keys_merge_left _ _ _ ((mem_keys_dictUpd _ _ _ _).2 (Or.inl h))
    · exact ih _ h

/-! ## Helper lemmas about the upsert primitive (claim C2) -/

theorem alookup_append {α β : Type} [DecidableEq α] (k : α) (l₁ l₂ : List (α × β)) :
    alookup k (l₁ ++ l₂) =
      match alookup k l₁ with
      | some v => some v
      | none => alookup k l₂ := by
  induction l₁ with
  | nil => rfl
  | cons p rest ih =>
    obtain ⟨k₀, v₀⟩ := p
    by_cases h : k = k₀
    · simp [alookup, h]
    · simp [alookup, h, ih]

theorem applyUpdateSet_cons (c' : String) (u' : List String) (r : Record) (now : Val)
    (old : Record) :
    applyUpdateSet (c' :: u') r now old =
      applyUpdateSet u' r now
        (if c' = "synced_at" then dictUpd "synced_at" now old
         else dictUpd c' ((alookup c' r).getD Val.null) old) := rfl

theorem applyUpdateSet_alookup_not_mem (u : List String) (r : Record) (now : Val)
    (c : String) : c ∉ u → ∀ old : Record,
      alookup c (applyUpdateSet u r now old) = alookup c old := by
  induction u with
  | nil => intro _ old; rfl
  | cons c' u' ih =>
    intro hc old
    have hc' : c ≠ c' := fun h => hc (h ▸ List.mem_cons_self c' u')
    have hcu : c ∉ u' := fun h => hc (List.mem_cons_of_mem _ h)
    rw [applyUpdateSet_cons, ih hcu]
    by_cases hs : c' = "synced_at"
    · rw [if_pos hs, dictUpd_alookup, if_neg (hs ▸ hc')]
    · rw [if_neg hs, dictUpd_alookup, if_neg hc']

theorem applyUpdateSet_synced_at (u' : List String) (r : Record) (now : Val)
    (hu : "synced_at" ∉ u') (old : Record) :
    alookup "synced_at" (applyUpdateSet ("synced_at" :: u') r now old) = some now := by
  rw [applyUpdateSet_cons, if_pos rfl,
    applyUpdateSet_alookup_not_mem u' r now _ hu, dictUpd_alookup, if_pos rfl]

theorem upsertRow_alookup (u : List String) (now : Val) (k : Val) (r : Record)
    (m : Mirror) (k' : Val) :
    alookup k' (upsertRow u now k r m) =
      if k' = k then
        match alookup k m with
        | some old => some (applyUpdateSet u r now old)
        | none => some (insertRow r now)
      else alookup k' m := by
  induction m with
  | nil =>
    simp only [upsertRow, alookup]
  | cons p m' ih =>
    obtain ⟨k₀, row⟩ := p
    by_cases h0 : k₀ = k
    · subst h0
      simp only [upsertRow, if_pos rfl, alookup, if_pos rfl]
      by_cases hk : k' = k₀
      · simp [hk]
      · simp [alookup, hk]
    · simp only [upsertRow, if_neg h0, alookup]
      have h0' : ¬ k = k₀ := fun h => h0 h.symm
      by_cases hk : k' = k₀
      · subst hk
        rw [if_pos rfl, if_neg h0, if_pos rfl]
      · rw [if_neg hk, ih, if_neg h0', if_neg hk]

theorem upsertChunk_isSome (u : List String) (now : Val) :
    ∀ (batch : List Record) (m : Mirror) (k : Val),
      (alookup k m).isSome = true → (alookup k (upsertChunk u now batch m)).isSome = true := by
  intro batch
  induction batch with
  | nil => intro m k h; exact h
  | cons r rest ih =>
    intro m k h
    show (alookup k (upsertChunk u now rest (upsertRow u now (idOf r) r m))).isSome = true
    refine ih _ k ?_
    rw [upsertRow_alookup]
    by_cases hk : k = idOf r
    · rw [if_pos hk]
      cases alookup (idOf r) m <;> simp
    · rw [if_neg hk]
      exact h

theorem upsertChunk_frame (u : List String) (now : Val) (c : String) (hc : c ∉ u) :
    ∀ (batch : List Record) (m : Mirror) (k : Val) (old : Record),
      alookup k m = some old →
      ∃ row', alookup k (upsertChunk u now batch m) = some row'
        ∧ alookup c row' = alookup c old := by
  intro batch
  induction batch with
  | nil => intro m k old h; exact ⟨old, h, rfl⟩
  | cons r rest ih =>
    intro m k old h
    show ∃ row', alookup k (upsertChunk u now rest (upsertRow u now (idOf r) r m)) = some row' ∧ _
    by_cases hk : k = idOf r
    · have hmid : alookup k (upsertRow u now (idOf r) r m) =
          some (applyUpdateSet u r now old) := by
        rw [upsertRow_alookup, if_pos hk, ← hk, h]
      obtain ⟨row', h1, h2⟩ := ih _ k (applyUpdateSet u r now old) hmid
      exact ⟨row', h1, by rw [h2, applyUpdateSet_alookup_not_mem u r now c hc]⟩
    · have hmid : alookup k (upsertRow u now (idOf r) r m) = some old := by
        rw [upsertRow_alookup, if_neg hk]
        exact h
      exact ih _ k old hmid

theorem upsertChunk_synced_at (u' : List String) (now : Val)
    (hu : "synced_at" ∉ u') :
    ∀ (batch : List Record),
      (∀ r ∈ batch, alookup "synced_at" r = none) →
      ∀ (m : Mirror) (k : Val),
        (k ∈ batch.map idOf ∨
          ∃ row, alookup k m = some row ∧ alookup "synced_at" row = some now) →
        ∃ row', alookup k (upsertChunk ("synced_at" :: u') now batch m) = some row'
          ∧ alookup "synced_at" row' = some now := by
  intro batch
  induction batch with
  | nil =>
    intro _ m k hk
    rcases hk with hk | ⟨row, h1, h2⟩
    · simp at hk
    · exact ⟨row, h1, h2⟩
  | cons r rest ih =>
    intro hrec m k hk
    have hrrec : alookup "synced_at" r = none := hrec r (List.mem_cons_self r rest)
    have hrest : ∀ r' ∈ rest, alookup "synced_at" r' = none :=
      fun r' h => hrec r' (List.mem_cons_of_mem _ h)
    show ∃ row', alookup k (upsertChunk _ now rest (upsertRow _ now (idOf r) r m)) = some row' ∧ _
    by_cases hkr : k = idOf r
    · refine ih hrest _ k (Or.inr ?_)
      rw [upsertRow_alookup, if_pos hkr]
      cases hm : alookup (idOf r) m with
      | some old =>
        exact ⟨_, rfl, applyUpdateSet_synced_at u' r now hu old⟩
      | none =>
        refine ⟨_, rfl, ?_⟩
        unfold insertRow
        rw [alookup_append, hrrec]
        simp [alookup]
    · rcases hk with hk | ⟨row, h1, h2⟩
      · simp only [List.map_cons, List.mem_cons] at hk
        rcases hk with hk | hk
        · exact absurd hk hkr
        · exact ih hrest _ k (Or.inl hk)
      · refine ih hrest _ k (Or.inr ⟨row, ?_, h2⟩)
        rw [upsertRow_alookup, if_neg hkr]
        exact h1

theorem upsertStatement_some (u : List String) (now : Val) (batch : List Record)
    (m m' : Mirror) (h : upsertStatement u now batch m = some m') :
    m' = upsertChunk u now batch m := by
  unfold upsertStatement at h
  split at h
  · injection h with h; exact h.symm
  · cases h

theorem chunksOfAux_flatten {α : Type} (n : Nat) :
    ∀ (l : List α) (skip : Nat), (chunksOfAux n skip l).flatten = l.drop skip := by
  intro l
  induction l with
  | nil => intro skip; cases skip <;> simp [chunksOfAux]
  | cons x xs ih =>
    intro skip
    cases skip with
    | succ k =>
      simp only [chunksOfAux, List.drop_succ_cons]
      exact ih k
    | zero =>
      obtain ⟨m, hm⟩ : ∃ m, chunkSize n = m + 1 := by
        cases n with
        | zero => exact ⟨0, rfl⟩
        | succ m => exact ⟨m, rfl⟩
      show ((x :: xs).take (chunkSize n) :: chunksOfAux n (chunkSize n - 1) xs).flatten
        = (x :: xs).drop 0
      rw [hm]
      simp only [Nat.add_sub_cancel, List.take_succ_cons, List.flatten_cons, List.drop_zero]
      rw [ih m]
      simp only [List.cons_append]
      rw [List.take_append_drop]

theorem chunksOf_flatten {α : Type} (n : Nat) (l : List α) : (chunksOf n l).flatten = l :=
  chunksOfAux_flatten n l 0

theorem chunksOfAux_sublist {α : Type} (n : Nat) :
    ∀ (l : List α) (skip : Nat) (c : List α), c ∈ chunksOfAux n skip l → c.Sublist l := by
  intro l
  induction l with
  | nil => intro skip c hc; cases skip <;> simp [chunksOfAux] at hc
  | cons x xs ih =>
    intro skip c hc
    cases skip with
    | succ k =>
      simp only [chunksOfAux] at hc
      exact (ih k c hc).cons x
    | zero =>
      simp only [chunksOfAux, List.mem_cons] at hc
      rcases hc with hc | hc
      · subst hc; exact List.take_sublist _ _
      · exact (ih _ c hc).cons x

theorem chunksOf_sublist {α : Type} (n : Nat) (l : List α) (c : List α)
    (h : c ∈ chunksOf n l) : c.Sublist l :=
  chunksOfAux_sublist n l 0 c h


theorem mem_foldr_append {α β : Type} (f : α → List β) (x : β) :
    ∀ (l : List α), x ∈ l.foldr (fun a acc => f a ++ acc) [] ↔ ∃ a ∈ l, x ∈ f a := by
  intro l
  induction l with
  | nil => simp
  | cons a rest ih =>
    simp only [List.foldr_cons, List.mem_append, ih]
    constructor
    · rintro (h | ⟨a', ha', hx⟩)
      · exact ⟨a, List.mem_cons_self a rest, h⟩
      · exact ⟨a', List.mem_cons_of_mem _ ha', hx⟩
    · rintro ⟨a', ha', hx⟩
      rcases List.mem_cons.1 ha' with h | h
      · exact Or.inl (h ▸ hx)
      · exact Or.inr ⟨a', h, hx⟩

theorem chunksFold_isSome (ucols : List Record → List String) (now : Val) :
    ∀ (chunks : List (List Record)) (m m' : Mirror),
      chunks.foldlM (fun acc batch => upsertStatement (ucols batch) now batch acc) m = some m' →
      ∀ k, (alookup k m).isSome = true → (alookup k m').isSome = true := by
  intro chunks
  induction chunks with
  | nil =>
    intro m m' h k hk
    simp only [List.foldlM_nil] at h
    injection h with h
    exact h ▸ hk
  | cons b bs ih =>
    intro m m' h k hk
    rw [List.foldlM_cons] at h
    cases hstep : upsertStatement (ucols b) now b m with
    | none => rw [hstep] at h; cases h
    | some m₁ =>
      rw [hstep] at h
      have hm₁ := upsertStatement_some _ _ _ _ _ hstep
      subst hm₁
      exact ih _ m' h k (upsertChunk_isSome _ _ _ _ k hk)

theorem chunksFold_frame (ucols : List Record → List String) (now : Val) (c : String) :
    ∀ (chunks : List (List Record)), (∀ b ∈ chunks, c ∉ ucols b) →
      ∀ (m m' : Mirror),
        chunks.foldlM (fun acc batch => upsertStatement (ucols batch) now batch acc) m = some m' →
        ∀ (k : Val) (old : Record), alookup k m = some old →
          ∃ row', alookup k m' = some row' ∧ alookup c row' = alookup c old := by
  intro chunks
  induction chunks with
  | nil =>
    intro _ m m' h k old hold
    simp only [List.foldlM_nil] at h
    injection h with h
    exact ⟨old, h ▸ hold, rfl⟩
  | cons b bs ih =>
    intro hcols m m' h k old hold
    rw [List.foldlM_cons] at h
    cases hstep : upsertStatement (ucols b) now b m with
    | none => rw [hstep] at h; cases h
    | some m₁ =>
      rw [hstep] at h
      have hm₁ := upsertStatement_some _ _ _ _ _ hstep
      subst hm₁
      obtain ⟨mid, hmid, hc⟩ :=
        upsertChunk_frame (ucols b) now c (hcols b (List.mem_cons_self b bs)) b m k old hold
      obtain ⟨row', h1, h2⟩ :=
        ih (fun b' hb' => hcols b' (List.mem_cons_of_mem _ hb')) _ m' h k mid hmid
      exact ⟨row', h1, h2.trans hc⟩

theorem chunksFold_synced (ucols : List Record → List String) (now : Val) :
    ∀ (chunks : List (List Record)),
      (∀ b ∈ chunks, ∃ tail, ucols b = "synced_at" :: tail ∧ "synced_at" ∉ tail) →
      (∀ b ∈ chunks, ∀ r ∈ b, alookup "synced_at" r = none) →
      ∀ (m m' : Mirror),
        chunks.foldlM (fun acc batch => upsertStatement (ucols batch) now batch acc) m = some m' →
        ∀ k, ((∃ b ∈ chunks, k ∈ b.map idOf) ∨
               (∃ row, alookup k m = some row ∧ alookup "synced_at" row = some now)) →
          ∃ row', alookup k m' = some row' ∧ alookup "synced_at" row' = some now := by
  intro chunks
  induction chunks with
  | nil =>
    intro _ _ m m' h k hk
    simp only [List.foldlM_nil] at h
    injection h with h
    subst h
    rcases hk with ⟨b, hb, _⟩ | ⟨row, h1, h2⟩
    · simp at hb
    · exact ⟨row, h1, h2⟩
  | cons b bs ih =>
    intro hshape hrecs m m' h k hk
    rw [List.foldlM_cons] at h
    cases hstep : upsertStatement (ucols b) now b m with
    | none => rw [hstep] at h; cases h
    | some m₁ =>
      rw [hstep] at h
      have hm₁ := upsertStatement_some _ _ _ _ _ hstep
      subst hm₁
      obtain ⟨tail, htail, hnotail⟩ := hshape b (List.mem_cons_self b bs)
      have hshape' : ∀ b' ∈ bs, ∃ tail, ucols b' = "synced_at" :: tail ∧ "synced_at" ∉ tail :=
        fun b' hb' => hshape b' (List.mem_cons_of_mem _ hb')
      have hrecs' : ∀ b' ∈ bs, ∀ r ∈ b', alookup "synced_at" r = none :=
        fun b' hb' => hrecs b' (List.mem_cons_of_mem _ hb')
      have hb_recs : ∀ r ∈ b, alookup "synced_at" r = none :=
        hrecs b (List.mem_cons_self b bs)
      rcases hk with ⟨b', hb', hkb⟩ | ⟨row, h1, h2⟩
      · rcases List.mem_cons.1 hb' with hb'' | hb''
        · subst hb''
          refine ih hshape' hrecs' _ m' h k (Or.inr ?_)
          have := upsertChunk_synced_at tail now hnotail b' hb_recs m k (Or.inl hkb)
          rw [← htail] at this
          exact this
        · exact ih hshape' hrecs' _ m' h k (Or.inl ⟨b', hb'', hkb⟩)
      · refine ih hshape' hrecs' _ m' h k (Or.inr ?_)
        have := upsertChunk_synced_at tail now hnotail b hb_recs m k (Or.inr ⟨row, h1, h2⟩)
        rw [← htail] at this
        exact this

theorem accountUpdateCols_shape (res : QueryResult) (first? : Option Record) :
    ∃ tail, accountUpdateCols (accountAvailableCols res) first? = "synced_at" :: tail
      ∧ "synced_at" ∉ tail := by
  refine ⟨_, rfl, ?_⟩
  intro hmem
  rw [List.append_eq, List.mem_append] at hmem
  rcases hmem with h | h
  · have h1 : "synced_at" ∈ accountAvailableCols res := List.mem_of_mem_filter h
    have h2 : "synced_at" ∈ account_pg_columns := List.mem_of_mem_filter h1
    exact absurd h2 (by decide)
  · cases first? with
    | none => simp at h
    | some r =>
      dsimp only at h
      by_cases hs : (alookup "ns_last_modified" r).isSome = true
      · rw [if_pos hs] at h
        simp at h
      · rw [if_neg hs] at h
        simp at h

theorem buildAccountRecord_synced_none (colLower : List String) (row : List Val) :
    alookup "synced_at" (buildAccountRecord colLower row) = none := by
  unfold buildAccountRecord
  dsimp only
  have hrec1 : alookup "synced_at"
      ((zipToRecord colLower row).filter (fun p => account_pg_columns.contains p.1)) = none := by
    apply alookup_eq_none_of_not_mem_keys
    intro hmem
    rw [List.mem_map] at hmem
    obtain ⟨p, hp, hfst⟩ := hmem
    rw [List.mem_filter] at hp
    have h2 := hp.2
    rw [hfst] at h2
    have h3 : ("synced_at" : String) ∈ account_pg_columns := by simpa using h2
    exact absurd h3 (by decide)
  cases halm : alookup "lastmodifieddate" (zipToRecord colLower row) with
  | some v =>
    dsimp only
    rw [dictUpd_alookup, if_neg (by decide)]
    exact hrec1
  | none =>
    dsimp only
    exact hrec1

theorem sync_accounts_records_synced_none (res : QueryResult) :
    ∀ r ∈ sync_accounts_records res, alookup "synced_at" r = none := by
  intro r hr
  unfold sync_accounts_records at hr
  rw [List.mem_map] at hr
  obtain ⟨row, _, hrow⟩ := hr
  exact hrow ▸ buildAccountRecord_synced_none _ row

/-! ## Claim C2 — re-sync overwrites only observed columns plus `synced_at` -/

/-- Claim C2 — for every pre-existing mirror row, re-running
`sync_accounts` overwrites only the update set of that sync (the observed
known columns except the key, `synced_at`, and the `ns_last_modified`
rename when observed): every other column keeps its exact prior value
(in particular it is never nulled); no row is ever deleted; and every
row whose id appears in the payload gets `synced_at` refreshed to the
write time. -/
theorem c2_resync_overwrites_only_observed :
    ∀ (res : QueryResult) (now : Val) (m m' : Mirror),
      sync_accounts_write res now m = some m' →
      (∀ k, (alookup k m).isSome = true → (alookup k m').isSome = true)
      ∧ (∀ (k : Val) (oldRow : Record) (c : String), alookup k m = some oldRow →
          c ∉ sync_accounts_update_cols res →
          ∃ row', alookup k m' = some row' ∧ alookup c row' = alookup c oldRow)
      ∧ (∀ k, k ∈ (sync_accounts_records res).map idOf →
          ∃ row', alookup k m' = some row' ∧ alookup "synced_at" row' = some now) := by
  intro res now m m' hw
  unfold sync_accounts_write at hw
  refine ⟨?_, ?_, ?_⟩
  · intro k hk
    exact chunksFold_isSome _ now _ m m' hw k hk
  · intro k oldRow c hold hc
    refine chunksFold_frame _ now c _ ?_ m m' hw k oldRow hold
    intro b hb hcb
    apply hc
    unfold sync_accounts_update_cols
    exact (mem_foldr_append _ c _).2 ⟨b, hb, hcb⟩
  · intro k hk
    refine chunksFold_synced _ now _ ?_ ?_ m m' hw k (Or.inl ?_)
    · intro b _
      exact accountUpdateCols_shape res b.head?
    · intro b hb r hr
      have hrmem : r ∈ sync_accounts_records res :=
        (chunksOf_sublist 2000 _ _ hb).subset hr
      exact sync_accounts_records_synced_none res r hrmem
    · rw [List.mem_map] at hk
      obtain ⟨r, hr, hid⟩ := hk
      rw [← chunksOf_flatten 2000 (sync_accounts_records res), List.mem_flatten] at hr
      obtain ⟨b, hb, hrb⟩ := hr
      exact ⟨b, hb, List.mem_map.2 ⟨r, hrb, hid⟩⟩

def c2_res : QueryResult :=
  { columns := ["ID", "Name"],
    rows := [[Val.n 1, Val.s "Cash"]] }

def c2_mirror : Mirror :=
  [(Val.n 1, [("id", Val.n 1), ("name", Val.s "Old"), ("fullname", Val.s "Old Full"),
              ("synced_at", Val.s "t0")])]

theorem c2_resync_overwrites_only_observed_witness :
    (∀ k, (alookup k c2_mirror).isSome = true →
      (alookup k ((sync_accounts_write c2_res (Val.s "t1") c2_mirror).getD [])).isSome = true)
    ∧ (∃ row', alookup (Val.n 1) ((sync_accounts_write c2_res (Val.s "t1") c2_mirror).getD [])
          = some row'
        ∧ alookup "fullname" row' =
            alookup "fullname" [("id", Val.n 1), ("name", Val.s "Old"),
              ("fullname", Val.s "Old Full"), ("synced_at", Val.s "t0")])
    ∧ (∃ row', alookup (Val.n 1) ((sync_accounts_write c2_res (Val.s "t1") c2_mirror).getD [])
          = some row'
        ∧ alookup "synced_at" row' = some (Val.s "t1")) := by
  have h := c2_resync_overwrites_only_observed c2_res (Val.s "t1") c2_mirror
    ((sync_accounts_write c2_res (Val.s "t1") c2_mirror).getD []) (by decide)
  refine ⟨h.1, ?_, ?_⟩
  · exact h.2.1 (Val.n 1)
      [("id", Val.n 1), ("name", Val.s "Old"), ("fullname", Val.s "Old Full"),
       ("synced_at", Val.s "t0")] "fullname" (by decide) (by decide)
  · exact h.2.2 (Val.n 1) (by decide)

/-! ## Helper lemmas for deduplication (claim C4) -/

theorem mem_dictUpd_pairs {α β : Type} [DecidableEq α] (k : α) (v : β)
    (l : List (α × β)) (p : α × β) : p ∈ dictUpd k v l → p = (k, v) ∨ p ∈ l := by
  induction l with
  | nil => intro h; simpa [dictUpd] using h
  | cons q rest ih =>
    obtain ⟨k₀, v₀⟩ := q
    intro h
    by_cases hk : k₀ = k
    · subst hk
      have hd : dictUpd k₀ v ((k₀, v₀) :: rest) = (k₀, v) :: rest := by simp [dictUpd]
      rw [hd, List.mem_cons] at h
      rcases h with h | h
      · exact Or.inl h
      · exact Or.inr (List.mem_cons_of_mem _ h)
    · have hd : dictUpd k v ((k₀, v₀) :: rest) = (k₀, v₀) :: dictUpd k v rest := by
        simp [dictUpd, hk]
      rw [hd, List.mem_cons] at h
      rcases h with h | h
      · exact Or.inr (by simp [h])
      · rcases ih h with h' | h'
        · exact Or.inl h'
        · exact Or.inr (List.mem_cons_of_mem _ h')

theorem find?_append_match {α : Type} (p : α → Bool) (l₁ l₂ : List α) :
    (l₁ ++ l₂).find? p =
      match l₁.find? p with
      | some a => some a
      | none => l₂.find? p := by
  induction l₁ with
  | nil => rfl
  | cons a l ih =>
    simp only [List.cons_append, List.find?]
    cases hpa : p a with
    | true => rfl
    | false => exact ih

theorem dedup_fold_invariant :
    ∀ (records : List Record) (acc : List (Val × Record)),
      (∀ p ∈ acc, idOf p.2 = p.1) →
      ∀ p ∈ records.foldl (fun acc r => dictUpd (idOf r) r acc) acc, idOf p.2 = p.1 := by
  intro records
  induction records with
  | nil => intro acc hacc p hp; exact hacc p hp
  | cons r rest ih =>
    intro acc hacc p hp
    simp only [List.foldl_cons] at hp
    refine ih (dictUpd (idOf r) r acc) ?_ p hp
    intro q hq
    rcases mem_dictUpd_pairs _ _ _ q hq with h | h
    · subst h; rfl
    · exact hacc q h

theorem dedup_fold_keys_nodup :
    ∀ (records : List Record) (acc : List (Val × Record)),
      (acc.map Prod.fst).Nodup →
      ((records.foldl (fun acc r => dictUpd (idOf r) r acc) acc).map Prod.fst).Nodup := by
  intro records
  induction records with
  | nil => intro acc hacc; exact hacc
  | cons r rest ih =>
    intro acc hacc
    simp only [List.foldl_cons]
    exact ih _ (keys_nodup_dictUpd _ _ _ hacc)

theorem dedup_fold_alookup (k : Val) :
    ∀ (records : List Record) (acc : List (Val × Record)),
      alookup k (records.foldl (fun acc r => dictUpd (idOf r) r acc) acc) =
        match records.reverse.find? (fun r => decide (idOf r = k)) with
        | some r => some r
        | none => alookup k acc := by
  intro records
  induction records with
  | nil => intro acc; rfl
  | cons r rest ih =>
    intro acc
    simp only [List.foldl_cons, List.reverse_cons]
    rw [ih, find?_append_match]
    cases hfind : rest.reverse.find? (fun r => decide (idOf r = k)) with
    | some r' => rfl
    | none =>
      dsimp only
      rw [dictUpd_alookup]
      by_cases hk : k = idOf r
      · subst hk
        rw [if_pos rfl]
        rw [List.find?_cons_of_pos _ (by simp)]
      · rw [if_neg hk]
        have hne : ¬ idOf r = k := fun h => hk h.symm
        rw [List.find?_cons_of_neg _ (by simpa using hne)]
        rfl

theorem assoc_map_snd_find? (k : Val) :
    ∀ (l : List (Val × Record)), (∀ p ∈ l, idOf p.2 = p.1) →
      (l.map Prod.snd).find? (fun r => decide (idOf r = k)) = alookup k l := by
  intro l
  induction l with
  | nil => intro _; rfl
  | cons p rest ih =>
    intro hinv
    obtain ⟨k', r⟩ := p
    have hk' : idOf r = k' := hinv (k', r) (by simp)
    simp only [List.map_cons]
    by_cases h : k = k'
    · subst h
      rw [List.find?_cons_of_pos _ (by simp [hk'])]
      simp [alookup]
    · have hne : ¬ idOf r = k := by rw [hk']; exact fun hh => h hh.symm
      rw [List.find?_cons_of_neg _ (by simpa using hne)]
      rw [ih (fun q hq => hinv q (List.mem_cons_of_mem _ hq))]
      simp [alookup, h]

/-! ## Claim C4 — chunked-extraction deduplication before the mirror write -/

/-- Claim C4 — deduplication by id passes exactly one record per id to
the mirror write, keeping the last-seen payload for each id (the first
conjunct plus the `find?` equation: looking a record up in the
deduplicated list agrees with the last occurrence in the extraction
order), and every 2000-record write chunk of the deduplicated list has
pairwise distinct keys, so no upsert statement ever touches the same key
twice. -/
theorem c4_dedup_keeps_last_payload :
    ∀ (records : List Record) (k : Val),
      ((dedupById records).map idOf).Nodup
      ∧ (dedupById records).find? (fun r => decide (idOf r = k)) =
          records.reverse.find? (fun r => decide (idOf r = k))
      ∧ (∀ chunk, chunk ∈ chunksOf 2000 (dedupById records) → (chunk.map idOf).Nodup)
      ∧ (∀ (updateCols : List String) (now : Val) (m : Mirror) (chunk : List Record),
           chunk ∈ chunksOf 2000 (dedupById records) →
           (upsertStatement updateCols now chunk m).isSome = true) := by
  intro records k
  have hinv : ∀ p ∈ records.foldl (fun acc r => dictUpd (idOf r) r acc) [], idOf p.2 = p.1 :=
    dedup_fold_invariant records [] (by simp)
  have hkeys : ((records.foldl (fun acc r => dictUpd (idOf r) r acc) []).map Prod.fst).Nodup :=
    dedup_fold_keys_nodup records [] (by simp)
  have hmap : (dedupById records).map idOf =
      (records.foldl (fun acc r => dictUpd (idOf r) r acc) []).map Prod.fst := by
    unfold dedupById
    rw [List.map_map]
    exact List.map_congr_left (fun p hp => hinv p hp)
  have hnd : ((dedupById records).map idOf).Nodup := by rw [hmap]; exact hkeys
  refine ⟨hnd, ?_, ?_, ?_⟩
  · unfold dedupById
    rw [assoc_map_snd_find? k _ hinv, dedup_fold_alookup k records []]
    cases records.reverse.find? (fun r => decide (idOf r = k)) <;> rfl
  · intro chunk hchunk
    exact ((chunksOf_sublist _ _ _ hchunk).map idOf).nodup hnd
  · intro updateCols now m chunk hchunk
    have : (chunk.map idOf).Nodup := ((chunksOf_sublist _ _ _ hchunk).map idOf).nodup hnd
    unfold upsertStatement
    rw [if_pos this]
    rfl

theorem c4_dedup_keeps_last_payload_witness :
    ((dedupById [[("id", Val.n 7), ("amount", Val.n 1)], [("id", Val.n 7), ("amount", Val.n 2)]]).map idOf).Nodup
    ∧ (dedupById [[("id", Val.n 7), ("amount", Val.n 1)], [("id", Val.n 7), ("amount", Val.n 2)]]).find?
          (fun r => decide (idOf r = Val.n 7)) =
        [[("id", Val.n 7), ("amount", Val.n 2)], [("id", Val.n 7), ("amount", Val.n 1)]].find?
          (fun r => decide (idOf r = Val.n 7)) := by
  have h := c4_dedup_keeps_last_payload
    [[("id", Val.n 7), ("amount", Val.n 1)], [("id", Val.n 7), ("amount", Val.n 2)]] (Val.n 7)
  exact ⟨h.1, h.2.1⟩

/-! ## Claims C3 and C5 — cache write semantics of discovery -/

def c3_tOld : TableInfo :=
  { name := "OLD", table_type := "TABLE", description := "",
    columns := [("C", { name := "C", data_type := "X" })] }

def c3_tNew : TableInfo :=
  { name := "NEW", table_type := "TABLE", description := "",
    columns := [("D", { name := "D", data_type := "Y" })] }

def c3_existing : Option SchemaCacheEntry :=
  some { tables := [("OLD", c3_tOld)], fetched_at := 0, connection_id := "c1" }

def c3_remote : RemoteSchema :=
  { table_names := ["NEW"], columns := fun _ => [("D", "Y")],
    batch_ok := true, single_fails := fun _ => false }

/-- Claim C3, counterexample: with an EXPIRED cache entry (fetched at 0,
discovery at time 200000 > TTL) and an unforced discovery of `NEW`, the
code still MERGES the old entry's tables into the new cache entry — the
`OLD` table survives — whereas the claim asserts the entry is replaced
wholesale by the newly discovered set when the existing entry is expired. -/
theorem c3_counterexample :
    is_cache_valid c3_existing 200000 = false
    ∧ (discover_schema c3_existing "c1" 200000 false (some ["NEW"]) c3_remote).cache =
        some { tables := [("OLD", c3_tOld), ("NEW", c3_tNew)],
               fetched_at := 200000, connection_id := "c1" }
    ∧ ¬ (discover_schema c3_existing "c1" 200000 false (some ["NEW"]) c3_remote).cache =
        some { tables := [("NEW", c3_tNew)], fetched_at := 200000, connection_id := "c1" } :=
  ⟨by decide, by decide, by decide⟩

/-- Claim C3, amended: when a discovery completes with a non-empty
discovered table set, the discovered tables are merged into the existing
cache entry whenever that entry exists and the discovery was unforced —
regardless of the entry's TTL validity; the entry is replaced wholesale
exactly when it is absent or the discovery was forced; and `fetchedAt`
is stamped with the current time. -/
theorem c3_cache_write_merge_rule :
    ∀ (existing : Option SchemaCacheEntry) (cid : String) (now : Nat) (force : Bool)
      (filter : Option (List String)) (remote : RemoteSchema),
      discover_cache_hit existing now force filter = false →
      (discovered_tables remote filter).isEmpty = false →
      ∃ entry, (discover_schema existing cid now force filter remote).cache = some entry
        ∧ entry.fetched_at = now
        ∧ (∀ e, existing = some e → force = false →
            (∀ n ti, alookup n (discovered_tables remote filter) = some ti →
               alookup n entry.tables = some ti)
            ∧ (∀ n, alookup n (discovered_tables remote filter) = none →
               alookup n entry.tables = alookup n e.tables))
        ∧ ((existing = none ∨ force = true) → entry.tables = discovered_tables remote filter) := by
  intro existing cid now force filter remote hhit hne
  have hnames : (fetch_tables remote filter).1.isEmpty = false := by
    by_contra hc
    have h1 : (fetch_tables remote filter).1 = [] := by
      cases hn : (fetch_tables remote filter).1 with
      | nil => rfl
      | cons a l => rw [hn] at hc; simp at hc
    have : discovered_tables remote filter = [] := by
      unfold discovered_tables
      rw [h1]
      rfl
    rw [this] at hne
    simp at hne
  unfold discover_schema
  rw [hhit]
  rw [if_neg (by simp)]
  dsimp only
  rw [hnames]
  rw [if_neg (by simp)]
  dsimp only
  have htab : build_tables (fetch_tables remote filter).1
      (fetch_columns_for_tables remote (fetch_tables remote filter).1).1 =
      discovered_tables remote filter := rfl
  unfold discover_cache_write
  rw [htab, hne]
  rw [if_neg (by simp)]
  dsimp only
  refine ⟨_, rfl, rfl, ?_, ?_⟩
  · intro e he hf
    subst he
    subst hf
    dsimp only
    rw [if_pos (show (!false) = true by decide)]
    have hnd : ((discovered_tables remote filter).map Prod.fst).Nodup :=
      build_tables_keys_nodup _ _
    constructor
    · intro n ti hti
      rw [merge_tables_alookup _ _ hnd n, hti]
    · intro n hn
      rw [merge_tables_alookup _ _ hnd n, hn]
  · intro hcase
    rcases hcase with he | hf
    · subst he
      rfl
    · subst hf
      cases existing with
      | none => rfl
      | some e => dsimp only; rw [if_neg (by simp)]

theorem c3_cache_write_merge_rule_witness :
    ∃ entry, (discover_schema c3_existing "c1" 200000 false (some ["NEW"]) c3_remote).cache = some entry
      ∧ entry.fetched_at = 200000
      ∧ (∀ e, c3_existing = some e → false = false →
          (∀ n ti, alookup n (discovered_tables c3_remote (some ["NEW"])) = some ti →
             alookup n entry.tables = some ti)
          ∧ (∀ n, alookup n (discovered_tables c3_remote (some ["NEW"])) = none →
             alookup n entry.tables = alookup n e.tables))
      ∧ ((c3_existing = none ∨ false = true) →
          entry.tables = discovered_tables c3_remote (some ["NEW"])) :=
  c3_cache_write_merge_rule c3_existing "c1" 200000 false (some ["NEW"]) c3_remote
    (by decide) (by decide)

def c5_remote : RemoteSchema :=
  { table_names := ["T"], columns := fun _ => [], batch_ok := true,
    single_fails := fun _ => false }

def c5_entry : SchemaCacheEntry :=
  { tables := [("OLD", c3_tOld)], fetched_at := 0, connection_id := "c" }

/-- Claim C5 — a table that yielded zero columns is excluded from the
discovered set, and a discovery whose discovered set is empty never
writes the cache: the existing entry (if any) is left exactly as it was,
so a transient remote failure cannot poison future lookups. -/
theorem c5_zero_column_and_empty_result_protection :
    (∀ (remote : RemoteSchema) (filter : Option (List String)) (n : String),
        (build_table_info n
          ((fetch_columns_for_tables remote (fetch_tables remote filter).1).1 n)).columns = [] →
        alookup n (discovered_tables remote filter) = none)
    ∧ (∀ (remote : RemoteSchema) (filter : Option (List String)) (n : String) (ti : TableInfo),
        alookup n (discovered_tables remote filter) = some ti → ti.columns ≠ [])
    ∧ (∀ (existing : Option SchemaCacheEntry) (cid : String) (now : Nat) (force : Bool)
        (filter : Option (List String)) (remote : RemoteSchema),
        (discovered_tables remote filter).isEmpty = true →
        (discover_schema existing cid now force filter remote).cache = existing) := by
  refine ⟨?_, ?_, ?_⟩
  · intro remote filter n h
    exact build_tables_zero_columns_excluded _ _ n h
  · intro remote filter n ti h
    exact build_tables_lookup_columns_ne_nil _ _ n ti h
  · intro existing cid now force filter remote h
    unfold discover_schema
    split
    · rfl
    · dsimp only
      split
      · rfl
      · dsimp only
        have htab : build_tables (fetch_tables remote filter).1
            (fetch_columns_for_tables remote (fetch_tables remote filter).1).1 =
            discovered_tables remote filter := rfl
        unfold discover_cache_write
        rw [htab, h]
        rw [if_pos rfl]

theorem c5_zero_column_and_empty_result_protection_witness :
    alookup "T" (discovered_tables c5_remote none) = none
    ∧ (discover_schema (some c5_entry) "c" 999999 false none c5_remote).cache = some c5_entry :=
  ⟨c5_zero_column_and_empty_result_protection.1 c5_remote none "T" (by decide),
   c5_zero_column_and_empty_result_protection.2.2 (some c5_entry) "c" 999999 false none c5_remote
     (by decide)⟩

/-! ## Helper lemmas about the translator (claims C6 and C7) -/

/-- No position of `s` matches the rename pattern for `(kw, old)`. -/
def noPassMatchB (kw old : List Char) : List Char → Bool
  | [] => true
  | c :: cs => (tryMatchTable kw old (c :: cs)).isNone && noPassMatchB kw old cs

theorem applyPassAux_zero_of_noMatch (kw old new : List Char) :
    ∀ s, noPassMatchB kw old s = true → applyPassAux kw old new 0 s = s := by
  intro s
  induction s with
  | nil => intro _; rfl
  | cons c cs ih =>
    intro h
    simp only [noPassMatchB, Bool.and_eq_true, Option.isNone_iff_eq_none] at h
    simp only [applyPassAux, h.1]
    rw [ih h.2]

theorem applyPass_of_noMatch (kw old new : List Char) (s : List Char)
    (h : noPassMatchB kw old s = true) : applyPass kw old new s = s :=
  applyPassAux_zero_of_noMatch kw old new s h

theorem foldl_applyPass_id (old new : List Char) :
    ∀ (kws : List String) (s : List Char),
      (∀ kw ∈ kws, noPassMatchB kw.data old s = true) →
      kws.foldl (fun acc kw => applyPass kw.data old new acc) s = s := by
  intro kws
  induction kws with
  | nil => intro s _; rfl
  | cons kw rest ih =>
    intro s h
    simp only [List.foldl_cons]
    rw [applyPass_of_noMatch _ _ _ s (h kw (List.mem_cons_self kw rest))]
    exact ih s (fun kw' hk => h kw' (List.mem_cons_of_mem _ hk))

theorem replace_table_name_id (s : List Char) (old new : String)
    (h : ∀ kw ∈ sql_keywords, noPassMatchB kw.data old.data s = true) :
    replace_table_name s old new = s :=
  foldl_applyPass_id old.data new.data sql_keywords s h

/-- The canonical remote table names, in the rewrite order of the source
(longer name first). -/
def rename_pass_names : List String :=
  ["transactionline", "transaction", "account", "employee", "customer"]

/-- No rename pattern for any `(keyword, canonical name)` pair matches in `s`. -/
def noRenameMatchB (s : List Char) : Bool :=
  rename_pass_names.all fun old => sql_keywords.all fun kw => noPassMatchB kw.data old.data s

theorem rewrite_table_names_of_noMatch (s : List Char) (h : noRenameMatchB s = true) :
    rewrite_table_names s = s := by
  have hco : ∀ old ∈ rename_pass_names, ∀ kw ∈ sql_keywords,
      noPassMatchB kw.data old.data s = true := by
    intro old hold kw hkw
    have h1 := List.all_eq_true.1 h old hold
    exact List.all_eq_true.1 h1 kw hkw
  have e1 := replace_table_name_id s "transactionline" "ns_transactionline"
    (hco "transactionline" (by simp [rename_pass_names]))
  have e2 := replace_table_name_id s "transaction" "ns_transaction"
    (hco "transaction" (by simp [rename_pass_names]))
  have e3 := replace_table_name_id s "account" "ns_account"
    (hco "account" (by simp [rename_pass_names]))
  have e4 := replace_table_name_id s "employee" "ns_employee"
    (hco "employee" (by simp [rename_pass_names]))
  have e5 := replace_table_name_id s "customer" "ns_customer"
    (hco "customer" (by simp [rename_pass_names]))
  unfold rewrite_table_names
  dsimp only
  rw [e1, e2, e3, e4]
  exact e5

theorem rewrite_syntax_pass_of_noTop (s : List Char) (h : searchTop s = none) :
    rewrite_syntax_pass s = s := by
  unfold rewrite_syntax_pass
  rw [h]

theorem get?_of_lt_takeWhile_length {α : Type} (q : α → Bool) :
    ∀ (l : List α) (i : Nat), i < (l.takeWhile q).length →
      ∃ a, l[i]? = some a ∧ q a = true := by
  intro l
  induction l with
  | nil => intro i h; simp at h
  | cons c cs ih =>
    intro i h
    by_cases hq : q c = true
    · rw [List.takeWhile_cons_of_pos hq] at h
      cases i with
      | zero => exact ⟨c, by simp, hq⟩
      | succ i =>
        simp only [List.length_cons] at h
        obtain ⟨a, ha, hqa⟩ := ih i (by omega)
        refine ⟨a, ?_, hqa⟩
        simpa using ha
    · rw [List.takeWhile_cons_of_neg (by simpa using hq)] at h
      simp at h

theorem tryMatchTable_name_preceded_by_space (kw old s : List Char) (p : Nat × Nat)
    (h : tryMatchTable kw old s = some p) :
    1 ≤ p.1 ∧ ∃ c, s[p.1 - 1]? = some c ∧ pyIsSpace c = true ∧ c ≠ '.' := by
  have hpre := tryMatchTable_pre_pos h
  unfold tryMatchTable at h
  dsimp only at h
  simp only [beq_iff_eq] at h
  split at h
  case isFalse => cases h
  case isTrue hkw =>
    split at h
    case isTrue => cases h
    case isFalse hw =>
      split at h
      case isFalse => cases h
      case isTrue hold =>
        have hp1 : p.1 = kw.length + (List.takeWhile pyIsSpace (s.drop kw.length)).length := by
          split at h
          · injection h with h'
            subst h'
            rfl
          · split at h
            · injection h with h'
              subst h'
              rfl
            · cases h
        have hwpos : 1 ≤ (List.takeWhile pyIsSpace (s.drop kw.length)).length := by omega
        obtain ⟨a, ha, hqa⟩ := get?_of_lt_takeWhile_length pyIsSpace (s.drop kw.length)
          ((List.takeWhile pyIsSpace (s.drop kw.length)).length - 1) (by omega)
        refine ⟨hpre, a, ?_, hqa, ?_⟩
        · rw [List.getElem?_drop] at ha
          rw [hp1]
          have heq : kw.length + (List.takeWhile pyIsSpace (s.drop kw.length)).length - 1 =
              kw.length + ((List.takeWhile pyIsSpace (s.drop kw.length)).length - 1) := by
            omega
          rw [heq]
          exact ha
        · intro hdot
          subst hdot
          exact absurd hqa (by decide)

/-! ## Claim C6 — idempotence of translation -/

/-- Claim C6, counterexample: for the input
`SELECT TOP 5 c FROM transaction;` (canonical table name plus a leading
TOP clause), translation is NOT idempotent: the trailing semicolon makes
the table-rename pattern miss `FROM transaction` on the first
application, the TOP rewrite then strips the semicolon and appends
`LIMIT 5`, and the second application renames the now-exposed table. -/
theorem c6_counterexample :
    translate "SELECT TOP 5 c FROM transaction;" = "SELECT c FROM transaction LIMIT 5"
    ∧ translate (translate "SELECT TOP 5 c FROM transaction;") =
        "SELECT c FROM ns_transaction LIMIT 5"
    ∧ translate (translate "SELECT TOP 5 c FROM transaction;") ≠
        translate "SELECT TOP 5 c FROM transaction;" :=
  ⟨by decide, by decide, by decide⟩

/-- Claim C6, amended: translation is idempotent for every input whose
translated text contains no residual rename pattern (a canonical table
name directly after a FROM/JOIN-family keyword) and no residual
`SELECT TOP n` pattern. Statements written with the canonical table names
and at most a leading row-limit clause, without a trailing semicolon,
satisfy this; the semicolon counterexample does not. -/
theorem c6_translation_idempotent :
    ∀ sql : String,
      noRenameMatchB (translate sql).data = true →
      searchTop (translate sql).data = none →
      translate (translate sql) = translate sql := by
  intro sql h1 h2
  show String.mk (rewrite_syntax_pass (rewrite_table_names (translate sql).data)) = translate sql
  rw [rewrite_table_names_of_noMatch _ h1, rewrite_syntax_pass_of_noTop _ h2]

theorem c6_translation_idempotent_witness :
    translate (translate "SELECT TOP 10 id, tranid FROM transaction") =
      translate "SELECT TOP 10 id, tranid FROM transaction" :=
  c6_translation_idempotent "SELECT TOP 10 id, tranid FROM transaction" (by decide) (by decide)

/-! ## Claim C7 — table renaming only after FROM/JOIN, never after a dot -/

/-- Claim C7 — the table renamer rewrites a canonical name only at a
rename-pattern match (when no pattern matches anywhere, the statement is
returned verbatim), and at every match the renamed occurrence is
immediately preceded by a whitespace character — hence never by a dot, so
column references like `t.transaction` are never touched; the
transactionline rename runs before its prefix transaction (conjuncts one
and two show both on the spec's example statements). -/
theorem c7_rename_scope :
    translate "SELECT t.transaction FROM transaction t" =
      "SELECT t.transaction FROM ns_transaction t"
    ∧ translate "SELECT * FROM transactionline" = "SELECT * FROM ns_transactionline"
    ∧ (∀ s : List Char, noRenameMatchB s = true → rewrite_table_names s = s)
    ∧ (∀ (kw old s : List Char) (p : Nat × Nat), tryMatchTable kw old s = some p →
        1 ≤ p.1 ∧ ∃ c, s[p.1 - 1]? = some c ∧ pyIsSpace c = true ∧ c ≠ '.') :=
  ⟨by decide, by decide, rewrite_table_names_of_noMatch,
   tryMatchTable_name_preceded_by_space⟩

theorem c7_rename_scope_witness :
    rewrite_table_names ("SELECT 1".data) = ("SELECT 1".data)
    ∧ (1 ≤ ((5, 1) : Nat × Nat).1
       ∧ ∃ c, ("FROM transaction t".data)[((5, 1) : Nat × Nat).1 - 1]? = some c
           ∧ pyIsSpace c = true ∧ c ≠ '.') :=
  ⟨c7_rename_scope.2.2.1 ("SELECT 1".data) (by decide),
   c7_rename_scope.2.2.2 ("FROM".data) ("transaction".data) ("FROM transaction t".data)
     (5, 1) (by decide)⟩

/-! ## Claim C8 — cache-hit fast path and cross-discovery accumulation -/

theorem fetch_tables_filter_mem (remote : RemoteSchema) (B : List String) (n : String)
    (h : n ∈ (fetch_tables remote (some B)).1) : n ∈ B := by
  simp only [fetch_tables] at h
  rw [List.mem_filter] at h
  simpa using h.2

theorem fetch_columns_mentions (remote : RemoteSchema) (names : List String) :
    ∀ call ∈ (fetch_columns_for_tables remote names).2, ∀ n ∈ call.mentions, n ∈ names := by
  intro call hc n hn
  by_cases hb : remote.batch_ok = true
  · simp only [fetch_columns_for_tables, hb, if_true] at hc
    simp only [List.mem_singleton] at hc
    subst hc
    simpa [GatewayCall.mentions] using hn
  · have hb' : remote.batch_ok = false := by simpa using hb
    simp only [fetch_columns_for_tables, hb', Bool.false_eq_true, if_false] at hc
    rw [List.mem_map] at hc
    obtain ⟨m, hm, hcall⟩ := hc
    subst hcall
    simp only [GatewayCall.mentions, List.mem_singleton] at hn
    exact hn ▸ hm

def c8_tA : TableInfo :=
  { name := "A", table_type := "TABLE", description := "",
    columns := [("K", { name := "K", data_type := "Z" })] }

def c8_entry : SchemaCacheEntry :=
  { tables := [("A", c8_tA)], fetched_at := 100, connection_id := "c" }

def c8_remote : RemoteSchema :=
  { table_names := ["B1"], columns := fun _ => [("C", "T")],
    batch_ok := true, single_fails := fun _ => false }

/-- Claim C8 — (1) an unforced discovery against a valid cache entry
whose filter (if any) is fully covered by the cached tables returns the
cached table map, makes zero gateway calls, and leaves the cache
untouched; (2) a subsequent filtered discovery for tables disjoint from
the cached ones queries the gateway only for names of the new filter
(never re-querying cached tables), and when it discovers anything, the
updated cache entry accumulates both the old tables and the newly
discovered ones, immediately readable through `get_cached_schema`. -/
theorem c8_cached_tables_never_refetched :
    (∀ (e : SchemaCacheEntry) (cid : String) (now : Nat) (filter : Option (List String))
        (remote : RemoteSchema),
        is_cache_valid (some e) now = true →
        (filter = none ∨ ∃ f, filter = some f ∧
           f.all (fun t => ((e.tables.map Prod.fst).map strToLower).contains (strToLower t)) = true) →
        discover_schema (some e) cid now false filter remote =
          { result := e.tables, cache := some e, calls := [] })
    ∧ (∀ (e : SchemaCacheEntry) (cid : String) (now : Nat) (B : List String)
        (remote : RemoteSchema),
        is_cache_valid (some e) now = true →
        (∀ b ∈ B, ((e.tables.map Prod.fst).map strToLower).contains (strToLower b) = false) →
        B ≠ [] →
        (∀ call ∈ (discover_schema (some e) cid now false (some B) remote).calls,
           ∀ n ∈ call.mentions, n ∈ B)
        ∧ ((discovered_tables remote (some B)).isEmpty = false →
            ∃ entry, (discover_schema (some e) cid now false (some B) remote).cache = some entry
              ∧ (∀ n, n ∈ e.tables.map Prod.fst → n ∈ entry.tables.map Prod.fst)
              ∧ (∀ n, n ∈ (discovered_tables remote (some B)).map Prod.fst →
                   n ∈ entry.tables.map Prod.fst)
              ∧ get_cached_schema
                  (discover_schema (some e) cid now false (some B) remote).cache now
                  = some entry.tables)) := by
  constructor
  · intro e cid now filter remote hvalid hcover
    have hhit : discover_cache_hit (some e) now false filter = true := by
      unfold discover_cache_hit
      rcases hcover with h | ⟨f, hf, hall⟩
      · subst h
        dsimp only
        rw [hvalid]
        rfl
      · subst hf
        dsimp only
        rw [hvalid, hall]
        rfl
    unfold discover_schema
    rw [hhit, if_pos rfl]
    rfl
  · intro e cid now B remote hvalid hdisj hBne
    have hhit : discover_cache_hit (some e) now false (some B) = false := by
      unfold discover_cache_hit
      have hall : B.all
          (fun t => ((e.tables.map Prod.fst).map strToLower).contains (strToLower t)) = false := by
        cases hB : B with
        | nil => exact absurd hB hBne
        | cons b rest =>
          rw [List.all_cons]
          rw [hdisj b (hB ▸ List.mem_cons_self b rest)]
          rfl
      dsimp only
      rw [hvalid, hall]
      rfl
    have hnames_sub : ∀ n ∈ (fetch_tables remote (some B)).1, n ∈ B :=
      fun n hn => fetch_tables_filter_mem remote B n hn
    constructor
    · intro call hcall n hn
      unfold discover_schema at hcall
      rw [hhit] at hcall
      rw [if_neg (by simp)] at hcall
      dsimp only at hcall
      by_cases hemp : (fetch_tables remote (some B)).1.isEmpty = true
      · rw [if_pos hemp] at hcall
        simp only [fetch_tables] at hcall
        simp only [List.mem_singleton] at hcall
        subst hcall
        simpa [GatewayCall.mentions] using hn
      · rw [if_neg hemp] at hcall
        dsimp only at hcall
        rw [List.mem_append] at hcall
        rcases hcall with hcall | hcall
        · simp only [fetch_tables, List.mem_singleton] at hcall
          subst hcall
          simpa [GatewayCall.mentions] using hn
        · exact hnames_sub n (fetch_columns_mentions remote _ call hcall n hn)
    · intro hne
      have hnemp : (fetch_tables remote (some B)).1.isEmpty = false := by
        by_contra hc
        have h1 : (fetch_tables remote (some B)).1 = [] := by
          cases hn : (fetch_tables remote (some B)).1 with
          | nil => rfl
          | cons a l => rw [hn] at hc; simp at hc
        have h2 : discovered_tables remote (some B) = [] := by
          unfold discovered_tables
          rw [h1]
          rfl
        rw [h2] at hne
        simp at hne
      unfold discover_schema
      rw [hhit]
      rw [if_neg (by simp)]
      dsimp only
      rw [hnemp]
      rw [if_neg (by simp)]
      dsimp only
      have htab : build_tables (fetch_tables remote (some B)).1
          (fetch_columns_for_tables remote (fetch_tables remote (some B)).1).1 =
          discovered_tables remote (some B) := rfl
      unfold discover_cache_write
      rw [htab, hne]
      rw [if_neg (by simp)]
      dsimp only
      rw [if_pos (show (!false) = true by decide)]
      refine ⟨_, rfl, ?_, ?_, ?_⟩
      · intro n hn
        exact mem_keys_merge_left _ _ n hn
      · intro n hn
        exact mem_keys_merge_right _ _ n hn
      · unfold get_cached_schema is_cache_valid
        dsimp only
        rw [if_pos (show decide (now - now < SCHEMA_CACHE_TTL) = true by
          rw [Nat.sub_self]; decide)]

theorem c8_cached_tables_never_refetched_witness :
    (discover_schema (some c8_entry) "c" 200 false none c8_remote =
      { result := c8_entry.tables, cache := some c8_entry, calls := [] })
    ∧ (∀ call ∈ (discover_schema (some c8_entry) "c" 200 false (some ["B1"]) c8_remote).calls,
        ∀ n ∈ call.mentions, n ∈ ["B1"])
    ∧ (∃ entry,
        (discover_schema (some c8_entry) "c" 200 false (some ["B1"]) c8_remote).cache = some entry
        ∧ (∀ n, n ∈ c8_entry.tables.map Prod.fst → n ∈ entry.tables.map Prod.fst)
        ∧ (∀ n, n ∈ (discovered_tables c8_remote (some ["B1"])).map Prod.fst →
             n ∈ entry.tables.map Prod.fst)
        ∧ get_cached_schema
            (discover_schema (some c8_entry) "c" 200 false (some ["B1"]) c8_remote).cache 200
            = some entry.tables) := by
  have h2 := c8_cached_tables_never_refetched.2 c8_entry "c" 200 ["B1"] c8_remote
    (by decide) (by decide) (by decide)
  exact ⟨c8_cached_tables_never_refetched.1 c8_entry "c" 200 none c8_remote
    (by decide) (Or.inl rfl), h2.1, h2.2 (by decide)⟩

/-! ## Claim C1 — the two validator acceptance examples -/

/-- Claim C1, counterexample: the second example statement
`WITH x AS (SELECT 1) SELECT * FROM x` is NOT accepted — the lexical
table check extracts the CTE alias `x` after `FROM` and rejects it
against the allow-list, so "validation succeeds for both examples" is
false on the code. -/
theorem c1_counterexample :
    validate_sql "WITH x AS (SELECT 1) SELECT * FROM x" =
      some "Table not allowed: x. Only NetSuite mirror tables are queryable." := by
  decide

/-- Claim C1, amended: the first example statement is accepted, while the
second is rejected with a table-not-allowed error naming the CTE alias
`x`, because the FROM/JOIN table scan does not track CTE aliases. -/
theorem c1_validator_examples :
    validate_sql "SELECT id, tranid FROM transaction WHERE trandate > '2024-01-01'" = none
    ∧ validate_sql "WITH x AS (SELECT 1) SELECT * FROM x" =
        some "Table not allowed: x. Only NetSuite mirror tables are queryable." := by
  exact ⟨by decide, by decide⟩

/-! ## Claim C9 — targeted-table requests with an unrecognized name -/

theorem sync_targeted_loop_reject (o : String → Except String Nat) :
    ∀ (ts effects : List String) (results : List (String × TableSyncResult)),
      ts.all recognizedTable = false →
      (sync_targeted_loop o ts effects results).status = "error"
      ∧ (sync_targeted_loop o ts effects results).effects =
          effects.reverse ++ ts.takeWhile recognizedTable := by
  intro ts
  induction ts with
  | nil => intro effects results h; simp [List.all_nil] at h
  | cons t rest ih =>
    intro effects results h
    by_cases hr : recognizedTable t = true
    · have hrest : rest.all recognizedTable = false := by
        simp only [List.all_cons, hr, Bool.true_and] at h
        exact h
      have hmain := ih (t :: effects) ((t, (run_table_sync t (o t)).1) :: results) hrest
      refine ⟨?_, ?_⟩
      · simp only [sync_targeted_loop, hr, if_true]
        exact hmain.1
      · simp only [sync_targeted_loop, hr, if_true]
        rw [hmain.2]
        simp [List.takeWhile_cons, hr]
    · have hr' : recognizedTable t = false := by simpa using hr
      refine ⟨?_, ?_⟩
      · simp [sync_targeted_loop, hr']
      · simp [sync_targeted_loop, hr', List.takeWhile_cons]

/-- Claim C9, counterexample: the request `["account", "bogus"]` is
answered with an error, but only after the account sync already ran
(remote extraction, mirror write and a sync-log entry for `account`
happen before the unrecognized name is reached), contradicting
"rejected before any I/O ... for any table in the request". -/
theorem c9_counterexample :
    (sync_netsuite_tables ["account", "bogus"] (fun _ => Except.ok 0)).status = "error"
    ∧ (sync_netsuite_tables ["account", "bogus"] (fun _ => Except.ok 0)).effects = ["account"]
    ∧ ¬ (sync_netsuite_tables ["account", "bogus"] (fun _ => Except.ok 0)).effects = [] := by
  refine ⟨by decide, by decide, by decide⟩

/-- Claim C9, amended: a targeted request containing an unrecognized
table name is answered with an error, and the syncs actually performed
are exactly those of the longest recognized prefix of the request — in
particular, when the first requested table is unrecognized, no I/O at
all is performed. -/
theorem c9_unrecognized_table_rejection :
    ∀ (ts : List String) (o : String → Except String Nat),
      ts.all recognizedTable = false →
      (sync_netsuite_tables ts o).status = "error"
      ∧ (sync_netsuite_tables ts o).effects = ts.takeWhile recognizedTable := by
  intro ts o h
  have := sync_targeted_loop_reject o ts [] [] h
  simpa [sync_netsuite_tables] using this

theorem c9_unrecognized_table_rejection_witness :
    (sync_netsuite_tables ["transactionline", "bogus", "account"] (fun _ => Except.ok 1)).status = "error"
    ∧ (sync_netsuite_tables ["transactionline", "bogus", "account"] (fun _ => Except.ok 1)).effects =
        List.takeWhile recognizedTable ["transactionline", "bogus", "account"] :=
  c9_unrecognized_table_rejection ["transactionline", "bogus", "account"] (fun _ => Except.ok 1)
    (by decide)

/-! ## Claim C10 — per-table failure containment and `sync_all` totality -/

/-- Claim C10 — every per-table sync catches extraction/write failures,
marking its own log entry `failed` with the error message and returning a
`status = "error"` dict; `sync_all` therefore totally returns a result
map with an entry for all five tables, whose overall status is exactly
`"success"` when every per-table status is `"success"` and `"partial"`
otherwise. -/
theorem c10_sync_all_total :
    ∀ (a e c t l : Except String Nat),
      (sync_all a e c t l).tables.map Prod.fst =
        ["account", "employee", "customer", "transaction", "transactionline"]
      ∧ (sync_all a e c t l).status =
          (if a.isOk && e.isOk && c.isOk && t.isOk && l.isOk then "success" else "partial")
      ∧ ((sync_all a e c t l).status = "success" ∨ (sync_all a e c t l).status = "partial")
      ∧ (∀ (tbl msg : String) (ex : Except String Nat), ex = Except.error msg →
           (run_table_sync tbl ex).1.status = "error"
           ∧ (run_table_sync tbl ex).2.status = "failed"
           ∧ (run_table_sync tbl ex).2.error_message = some msg) := by
  intro a e c t l
  refine ⟨?_, ?_, ?_, ?_⟩
  · cases a <;> cases e <;> cases c <;> cases t <;> cases l <;> rfl
  · cases a <;> cases e <;> cases c <;> cases t <;> cases l <;>
      simp [sync_all, run_table_sync, Except.isOk, Except.toBool]
  · cases a <;> cases e <;> cases c <;> cases t <;> cases l <;>
      simp [sync_all, run_table_sync]
  · intro tbl msg ex hex
    subst hex
    exact ⟨rfl, rfl, rfl⟩

theorem c10_sync_all_total_witness :
    (sync_all (Except.ok 2) (Except.error "boom") (Except.ok 0) (Except.ok 1) (Except.ok 5)).status
      = (if (Except.ok 2 : Except String Nat).isOk && (Except.error "boom" : Except String Nat).isOk
            && (Except.ok 0 : Except String Nat).isOk && (Except.ok 1 : Except String Nat).isOk
            && (Except.ok 5 : Except String Nat).isOk then "success" else "partial")
    ∧ (run_table_sync "account" (Except.error "boom")).2.status = "failed" :=
  ⟨(c10_sync_all_total (Except.ok 2) (Except.error "boom") (Except.ok 0) (Except.ok 1) (Except.ok 5)).2.1,
   ((c10_sync_all_total (Except.ok 2) (Except.error "boom") (Except.ok 0) (Except.ok 1) (Except.ok 5)).2.2.2
     "account" "boom" (Except.error "boom") rfl).2.1⟩

end NetSuiteAI
